import Mathlib

/-!
Shallow embedding of `src/backend/app.py` (Panerman1/Tracker): an in-memory
transaction analytics service.  Amounts are modelled as exact rationals
(Python floats, excluding non-finite values), Python dicts keyed by strings
as insertion-ordered association lists, Python exceptions as `Except PyError`,
and the two module-level globals `transactions` and `cache` as a `StoreState`
acted on by the HTTP handlers.
-/

deriving instance DecidableEq for Except

namespace Tracker

/-- Errors a handler body can raise: `ZeroDivisionError` from `a / b` with a
zero denominator, and `ValueError` (from `datetime.strptime` on a bad date
string, or `max()` / `min()` on an empty sequence). -/
inductive PyError where
  | zeroDivisionError
  | valueError (msg : String)
deriving DecidableEq, Repr

/-- Python float division `a / b`: raises `ZeroDivisionError` when `b = 0`. -/
def pyDiv (a b : ℚ) : Except PyError ℚ :=
  if b = 0 then .error .zeroDivisionError else .ok (a / b)

/-- Round half to even at integer precision (the tie-breaking rule of Python's
built-in `round`). -/
def roundHalfEven (q : ℚ) : ℤ :=
  let f : ℤ := ⌊q⌋
  let frac : ℚ := q - f
  if frac < 1/2 then f
  else if 1/2 < frac then f + 1
  else if f % 2 = 0 then f else f + 1

/-- Python `round(x, 2)` modelled over exact rationals. -/
def round2 (q : ℚ) : ℚ := (roundHalfEven (q * 100) : ℚ) / 100

/-- `max()` over a list of numbers; Python raises `ValueError` on an empty
sequence. -/
def pyMaxList (l : List ℚ) : Except PyError ℚ :=
  match l with
  | [] => .error (.valueError "max() arg is an empty sequence")
  | x :: xs => .ok (xs.foldl max x)

/-- `min()` over a list of numbers; Python raises `ValueError` on an empty
sequence. -/
def pyMinList (l : List ℚ) : Except PyError ℚ :=
  match l with
  | [] => .error (.valueError "min() arg is an empty sequence")
  | x :: xs => .ok (xs.foldl min x)

/-- `max(items, key=lambda x: x[1])` over dict items: returns the first pair
with maximal second component (Python's `max` keeps the earliest maximum),
raising `ValueError` on an empty sequence. -/
def pyMaxBySnd {β : Type} [LinearOrder β] (l : List (String × β)) :
    Except PyError (String × β) :=
  match l with
  | [] => .error (.valueError "max() arg is an empty sequence")
  | p :: rest => .ok (rest.foldl (fun acc q => if acc.2 < q.2 then q else acc) p)

/-- `min(items, key=lambda x: x[1])` over dict items: first pair with minimal
second component. -/
def pyMinBySnd {β : Type} [LinearOrder β] (l : List (String × β)) :
    Except PyError (String × β) :=
  match l with
  | [] => .error (.valueError "min() arg is an empty sequence")
  | p :: rest => .ok (rest.foldl (fun acc q => if q.2 < acc.2 then q else acc) p)

/-- `d[k] = f(d[k])` on a `defaultdict` with default value `dflt`, modelled on
an insertion-ordered association list: updates the existing entry in place, or
appends a fresh entry `(k, f dflt)` at the end. -/
def pyUpd {β : Type} (l : List (String × β)) (k : String) (f : β → β) (dflt : β) :
    List (String × β) :=
  match l with
  | [] => [(k, f dflt)]
  | p :: rest => if p.1 = k then (p.1, f p.2) :: rest else p :: pyUpd rest k f dflt

/-- A validated transaction (`app.py` lines 62-67).  `id` is an opaque JSON
value copied verbatim by the code; it is modelled as a `String`. -/
structure Txn where
  id : String
  amount : ℚ
  category : String
  date : String
deriving DecidableEq, Repr

/-- A raw upload record (an arbitrary JSON object).  Each field is `none` when
the key is absent.  The `amount` field is modelled by the result of Python's
`float()` conversion on its value: `some (some q)` when the key is present and
converts to the finite float `q`, `some none` when present but `float()` raises
`ValueError`/`TypeError`. -/
structure RawTxn where
  id : Option String
  amount : Option (Option ℚ)
  category : Option String
  date : Option String
deriving DecidableEq, Repr

/-- `all(key in txn for key in ['id', 'amount', 'category', 'date'])`. -/
def hasAllFields (r : RawTxn) : Bool :=
  r.id.isSome && r.amount.isSome && r.category.isSome && r.date.isSome

/-- The three per-record validation failures of the upload loop, in the order
the code checks them. -/
inductive RecErr where
  | missing
  | invalid
  | negative
deriving DecidableEq, Repr

/-- First validation failure of a single record, or `none` if it is accepted:
missing keys are checked first, then `float()` convertibility, then sign. -/
def recordCheck (r : RawTxn) : Option RecErr :=
  if ¬ hasAllFields r then some .missing
  else match r.amount with
    | some none => some .invalid
    | some (some q) => if q < 0 then some .negative else none
    | none => some .missing

/-- Error message for a failing record at index `idx` (`app.py` lines 44-59).
The code's invalid-amount message also interpolates the raw value, which the
model leaves abstract. -/
def errMsg (e : RecErr) (idx : ℕ) : String :=
  match e with
  | .missing => "Transaction at index " ++ toString idx ++
      " is missing required fields: id, amount, category, date"
  | .invalid => "Transaction at index " ++ toString idx ++ " has invalid amount"
  | .negative => "Transaction at index " ++ toString idx ++ " has negative amount"

/-- `str.strip()`: drop whitespace characters from both ends (Python also
strips a few more Unicode space characters than `Char.isWhitespace` covers;
those never matter here). -/
def pyStrip (s : String) : String :=
  String.mk (((s.data.dropWhile Char.isWhitespace).reverse.dropWhile
    Char.isWhitespace).reverse)

/-- The canonical transaction built from an accepted record
(`app.py` lines 62-67): `category` and `date` are `str(...).strip()`-ed. -/
def mkTxn (i : String) (q : ℚ) (c d : String) : Txn :=
  ⟨i, q, pyStrip c, pyStrip d⟩

/-- The validation loop of `upload_transactions` from index `idx` on: stops at
the first failing record with its error message, otherwise returns the
canonical transaction list. -/
def validateFrom (idx : ℕ) : List RawTxn → Except String (List Txn)
  | [] => .ok []
  | r :: rs =>
    match r.id, r.amount, r.category, r.date with
    | some i, some am, some c, some d =>
      match am with
      | none => .error (errMsg .invalid idx)
      | some q =>
        if q < 0 then .error (errMsg .negative idx)
        else
          match validateFrom (idx + 1) rs with
          | .error msg => .error msg
          | .ok ts => .ok (mkTxn i q c d :: ts)
    | _, _, _, _ => .error (errMsg .missing idx)

/-- An upload request body: either not a JSON array (or JSON `null`), or an
array of records. -/
inductive UploadBody where
  | notList
  | list (rs : List RawTxn)

/-- Responses of `POST /upload`: a 400 with an error message, or a 200 with
`count` and `categories`.  The unreachable `except`-wrapper 500 is omitted. -/
inductive UploadResponse where
  | err400 (msg : String)
  | ok200 (count : ℕ) (categories : List String)
deriving DecidableEq, Repr

/-- The module-level mutable state: the `transactions` list and the `cache`
dict.  The only key ever written to the cache is `"summary"`, so the cache is
modelled as an optional cached summary result. -/
structure StoreState (σ : Type) where
  transactions : List Txn
  cache : Option σ
deriving DecidableEq, Repr

/-- `"Invalid data format. Expected JSON array of transactions"`; note that in
the code `if not data or not isinstance(data, list)` also fires on the empty
list, so the dedicated empty-list branch below it is dead. -/
def fmtErrMsg : String := "Invalid data format. Expected JSON array of transactions"

/-- `POST /upload` (`app.py` lines 19-80): validates the batch; on success
replaces the transaction list wholesale and clears the cache; on failure leaves
the state untouched.  `list(set(...))` iterates a hash set in unspecified
order; the model picks the first-occurrence order of the stored list. -/
def upload {σ : Type} (s : StoreState σ) (body : UploadBody) :
    StoreState σ × UploadResponse :=
  match body with
  | .notList => (s, .err400 fmtErrMsg)
  | .list rs =>
    if rs = [] then (s, .err400 fmtErrMsg)
    else
      match validateFrom 0 rs with
      | .error msg => (s, .err400 msg)
      | .ok ts =>
        (⟨ts, none⟩, .ok200 ts.length ((ts.map Txn.category).eraseDups))

/-- Insert `x` into `l` before the first element `y` with `lt x y`.  Folding
`pyInsert` over a list in order is a stable sort: Python's `list.sort` /
`sorted` (Timsort) are stable, and every stable sort for the same comparator
computes the same list. -/
def pyInsert {α : Type} (lt : α → α → Bool) (x : α) : List α → List α
  | [] => [x]
  | y :: ys => if lt x y then x :: y :: ys else y :: pyInsert lt x ys

/-- Stable sort placing `a` before `b` exactly when `lt a b` (ties keep input
order); models Python's stable `sort`/`sorted`. -/
def pySort {α : Type} (lt : α → α → Bool) (l : List α) : List α :=
  l.foldl (fun acc x => pyInsert lt x acc) []

/-- One entry of the `summary` list of `GET /summary` (`app.py` lines 135-143),
with all monetary fields rounded to 2 decimals. -/
structure CatRow where
  category : String
  total : ℚ
  count : ℕ
  average : ℚ
  percentage : ℚ
  highest : ℚ
  lowest : ℚ
deriving DecidableEq, Repr

/-- The body of a non-empty `GET /summary` response (`app.py` lines 148-154). -/
structure SummaryResult where
  summary : List CatRow
  grand_total : ℚ
  categories_count : ℕ
  total_transactions : ℕ
  overall_average : ℚ
deriving DecidableEq, Repr

/-- The per-category accumulator of `get_summary` (`category_data`): running
total, count, and the appended `(amount, date)` pairs. -/
def CatAcc : Type := ℚ × ℕ × List (ℚ × String)

/-- The `category_data` defaultdict of `get_summary` (`app.py` lines 106-120):
an insertion-ordered map from category to accumulated total, count and
`(amount, date)` list. -/
def categoryData (txns : List Txn) : List (String × CatAcc) :=
  txns.foldl
    (fun acc t =>
      pyUpd acc t.category
        (fun v => (v.1 + t.amount, v.2.1 + 1, v.2.2 ++ [(t.amount, t.date)]))
        ((0 : ℚ), (0 : ℕ), ([] : List (ℚ × String))))
    []

/-- One row of the summary (`app.py` lines 127-143).  Every division and
`max`/`min` here is guarded in the source (`if data['count'] > 0 else 0`,
`if grand_total > 0 else 0`, `if amounts else 0`), so the row function is
total; `summaryDivsChecked` below re-expresses the same computation with
checked division. -/
def mkCatRow (grandTotal : ℚ) (p : String × CatAcc) : CatRow :=
  let total := p.2.1
  let count := p.2.2.1
  let amounts := p.2.2.2.map Prod.fst
  { category := p.1
    total := round2 total
    count := count
    average := round2 (if 0 < count then total / count else 0)
    percentage := round2 (if 0 < grandTotal then total / grandTotal * 100 else 0)
    highest := match amounts with
      | [] => 0
      | x :: xs => round2 (xs.foldl max x)
    lowest := match amounts with
      | [] => 0
      | x :: xs => round2 (xs.foldl min x) }

/-- Descending comparison on the (rounded) `total` field used by
`summary.sort(key=lambda x: x['total'], reverse=True)`. -/
def rowGT (a b : CatRow) : Bool := decide (b.total < a.total)

/-- The summary computation of `get_summary` on a non-empty transaction list
(`app.py` lines 106-154). -/
def computeSummary (txns : List Txn) : SummaryResult :=
  let cd := categoryData txns
  let grandTotal := (cd.map (fun p => p.2.1)).sum
  let rows := pySort rowGT (cd.map (mkCatRow grandTotal))
  { summary := rows
    grand_total := round2 grandTotal
    categories_count := rows.length
    total_transactions := txns.length
    overall_average :=
      if 0 < txns.length then round2 (grandTotal / txns.length) else 0 }

/-- Responses of `GET /summary`: the no-data message body (`app.py` lines
95-103) or a computed/cached `SummaryResult`. -/
inductive SummaryResponse where
  | noData
  | data (r : SummaryResult)
deriving DecidableEq, Repr

/-- `GET /summary` (`app.py` lines 83-159) acting on the store: serves the
cache when the `"summary"` key is present, returns the no-data body on an
empty list (without caching), and otherwise computes, caches and returns the
summary. -/
def getSummary (s : StoreState SummaryResult) :
    StoreState SummaryResult × SummaryResponse :=
  match s.cache with
  | some r => (s, .data r)
  | none =>
    if s.transactions = [] then (s, .noData)
    else
      let r := computeSummary s.transactions
      (⟨s.transactions, some r⟩, .data r)

/-- The states of the module globals reachable from startup: the empty store,
then any interleaving of `POST /upload` and `GET /summary`.  The remaining
endpoints never write the globals. -/
inductive Reachable : StoreState SummaryResult → Prop
  | init : Reachable ⟨[], none⟩
  | upload_step (s : StoreState SummaryResult) (b : UploadBody) :
      Reachable s → Reachable (upload s b).1
  | summary_step (s : StoreState SummaryResult) :
      Reachable s → Reachable (getSummary s).1

/-- Leading decimal digits of a character list: accumulated value, number of
digits consumed, and the rest. -/
def readDigitsAux (val cnt : ℕ) : List Char → ℕ × ℕ × List Char
  | [] => (val, cnt, [])
  | c :: cs =>
    if c.isDigit then readDigitsAux (10 * val + (c.toNat - 48)) (cnt + 1) cs
    else (val, cnt, c :: cs)

/-- Length of a month, with the Gregorian leap rule used by `datetime`. -/
def daysInMonth (y m : ℕ) : ℕ :=
  if m = 2 then (if (y % 4 = 0 ∧ y % 100 ≠ 0) ∨ y % 400 = 0 then 29 else 28)
  else if m = 4 ∨ m = 6 ∨ m = 9 ∨ m = 11 then 30 else 31

/-- The value of a digit string read onto an accumulator, as `readDigitsAux`
computes it. -/
def natOfDigits (v : ℕ) (ds : List Char) : ℕ :=
  ds.foldl (fun n c => 10 * n + (c.toNat - 48)) v

/-- `datetime.strptime(s, '%Y-%m-%d')` (`app.py` line 178), returning
`(year, month, day)`.  CPython's `_strptime` matches `%Y` as exactly four
digits, `%m` as `1[0-2]|0[1-9]|[1-9]` (so one OR two digits), `%d` as
`3[01]|[12]\d|0[1-9]|[1-9]`, requires the whole string to be consumed, and the
`datetime` constructor then rejects year 0 and a day beyond the month length.
Non-ASCII digits are not modelled. -/
def parseDate (s : String) : Option (ℕ × ℕ × ℕ) :=
  let py := readDigitsAux 0 0 s.data
  match py.2.2 with
  | c1 :: r2 =>
    if c1 = '-' then
      let pm := readDigitsAux 0 0 r2
      match pm.2.2 with
      | c2 :: r4 =>
        if c2 = '-' then
          let pd := readDigitsAux 0 0 r4
          if py.2.1 = 4 ∧ 1 ≤ py.1 ∧
             1 ≤ pm.2.1 ∧ pm.2.1 ≤ 2 ∧ 1 ≤ pm.1 ∧ pm.1 ≤ 12 ∧
             1 ≤ pd.2.1 ∧ pd.2.1 ≤ 2 ∧ 1 ≤ pd.1 ∧ pd.1 ≤ 31 ∧
             pd.1 ≤ daysInMonth py.1 pm.1 ∧ pd.2.2 = []
          then some (py.1, pm.1, pd.1) else none
        else none
      | [] => none
    else none
  | [] => none

/-- The decimal digit character for `n < 10`. -/
def digitChar (n : ℕ) : Char := Char.ofNat (48 + n)

/-- Two-digit zero-padded rendering (`%m` in `strftime`). -/
def pad2 (n : ℕ) : String := String.mk [digitChar (n / 10 % 10), digitChar (n % 10)]

/-- Four-digit zero-padded rendering of the year.  `%Y` always sees a year
parsed from exactly four digits here; its rendering is platform-dependent only
below year 1000. -/
def pad4 (n : ℕ) : String :=
  String.mk [digitChar (n / 1000 % 10), digitChar (n / 100 % 10),
             digitChar (n / 10 % 10), digitChar (n % 10)]

/-- `date_obj.strftime('%Y-%m')` (`app.py` line 179). -/
def monthKey (y m : ℕ) : String := pad4 y ++ "-" ++ pad2 m

/-- Per-month accumulator of `get_trends` (`monthly_data` values): total,
count, and the inner per-category `defaultdict(float)`. -/
def MonthAcc : Type := ℚ × ℕ × List (String × ℚ)

/-- The grouping loop of `get_trends` (`app.py` lines 175-183), raising
`ValueError` at the first date that `strptime` rejects. -/
def monthlyDataFrom (acc : List (String × MonthAcc)) :
    List Txn → Except PyError (List (String × MonthAcc))
  | [] => .ok acc
  | t :: ts =>
    match parseDate t.date with
    | none => .error (.valueError t.date)
    | some (y, m, _) =>
      monthlyDataFrom
        (pyUpd acc (monthKey y m)
          (fun v => (v.1 + t.amount, v.2.1 + 1, pyUpd v.2.2 t.category (fun x => x + t.amount) 0))
          ((0 : ℚ), (0 : ℕ), ([] : List (String × ℚ))))
        ts

/-- One entry of `monthly_trends` (`app.py` lines 188-195). -/
structure MonthBucket where
  month : String
  total : ℚ
  count : ℕ
  average : ℚ
  top_category : String
  categories : List (String × ℚ)
deriving DecidableEq, Repr

/-- Formats one month bucket (`app.py` lines 188-195): the unguarded
`data['total'] / data['count']` division, then `max(data['categories'].items(),
key=lambda x: x[1])[0]`, then the rounded per-category sub-totals. -/
def mkBucket (p : String × MonthAcc) : Except PyError MonthBucket := do
  let avg ← pyDiv p.2.1 p.2.2.1
  let top ← pyMaxBySnd p.2.2.2
  .ok ⟨p.1, round2 p.2.1, p.2.2.1, round2 avg, top.1,
       p.2.2.2.map (fun q => (q.1, round2 q.2))⟩

/-- Responses of `GET /trends`: the empty-store body, whose JSON keys are
`message` and `trends` (an empty list), or the populated body with keys
`monthly_trends` and `months_count` (`app.py` lines 168-200). -/
inductive TrendsResponse where
  | noData
  | trends (monthly_trends : List MonthBucket) (months_count : ℕ)
deriving DecidableEq, Repr

/-- `GET /trends` (`app.py` lines 162-200): `sorted(monthly_data.items())`
sorts the buckets ascending by their (unique) month keys. -/
def getTrends (txns : List Txn) : Except PyError TrendsResponse :=
  if txns = [] then .ok .noData
  else do
    let md ← monthlyDataFrom [] txns
    let sortedMd := pySort (fun a b => decide (a.1 < b.1)) md
    let buckets ← sortedMd.mapM mkBucket
    .ok (.trends buckets buckets.length)

/-- The 200 body of `GET /category-details/<category>`
(`app.py` lines 227-235). -/
structure DetailsResult where
  category : String
  total : ℚ
  count : ℕ
  average : ℚ
  highest : ℚ
  lowest : ℚ
  transactions : List Txn
deriving DecidableEq, Repr

/-- Responses of `GET /category-details/<category>`: 404 on an empty store,
404 on no exact category match, or the 200 detail body. -/
inductive DetailsResponse where
  | noTxns404
  | notFound404 (category : String)
  | ok200 (r : DetailsResult)
deriving DecidableEq, Repr

/-- `GET /category-details/<category>` (`app.py` lines 203-235): exact,
case-sensitive filter; ascending stable sort by the date string; `total` and
`average` rounded, `highest`/`lowest` raw.  The sort preserves length, so
`count` is taken from the filtered list. -/
def getCategoryDetails (txns : List Txn) (c : String) :
    Except PyError DetailsResponse :=
  if txns = [] then .ok .noTxns404
  else
    let ms := txns.filter (fun t => t.category == c)
    if ms = [] then .ok (.notFound404 c)
    else do
      let total := (ms.map Txn.amount).sum
      let amounts := ms.map Txn.amount
      let sortedTx := pySort (fun a b => decide (a.date < b.date)) ms
      let avg ← pyDiv total ms.length
      let hi ← pyMaxList amounts
      let lo ← pyMinList amounts
      .ok (.ok200 ⟨c, round2 total, ms.length, round2 avg, hi, lo, sortedTx⟩)

/-- The insights of `GET /insight` with their numeric payloads; the code
renders each as a fixed format string (`app.py` lines 244-294). -/
inductive Insight where
  | noTransactions
  | highestSpend (category : String) (total percentage : ℚ)
  | averageValue (avg : ℚ) (count : ℕ)
  | mostFrequent (category : String) (count : ℕ)
  | lowestSpend (category : String) (total : ℚ)
  | highValue (count : ℕ) (threshold : ℚ)
deriving DecidableEq, Repr

/-- The `category_totals` defaultdict of `get_insights`
(`app.py` lines 252-257). -/
def categoryTotals (txns : List Txn) : List (String × ℚ) :=
  txns.foldl (fun a t => pyUpd a t.category (fun x => x + t.amount) 0) []

/-- The `category_counts` defaultdict of `get_insights`
(`app.py` lines 253-257). -/
def categoryCounts (txns : List Txn) : List (String × ℕ) :=
  txns.foldl (fun a t => pyUpd a t.category (fun n => n + 1) 0) []

/-- `GET /insight` (`app.py` lines 238-294).  The highest-spend percentage
divides by `sum(category_totals.values())` without a guard; the average
divides by `len(transactions)` after the empty-store early return. -/
def getInsights (txns : List Txn) : Except PyError (List Insight) :=
  if txns = [] then .ok [.noTransactions]
  else do
    let totals := categoryTotals txns
    let counts := categoryCounts txns
    let ins1 ← if totals = [] then pure ([] : List Insight)
      else do
        let mc ← pyMaxBySnd totals
        let pct ← pyDiv mc.2 ((totals.map Prod.snd).sum)
        pure [Insight.highestSpend mc.1 mc.2 (pct * 100)]
    let totalAmount := (txns.map Txn.amount).sum
    let avgTransaction ← pyDiv totalAmount txns.length
    let ins2 := [Insight.averageValue avgTransaction txns.length]
    let mf ← pyMaxBySnd counts
    let ins3 := [Insight.mostFrequent mf.1 mf.2]
    let ins4 ← if 1 < totals.length then do
        let mn ← pyMinBySnd totals
        pure [Insight.lowestSpend mn.1 mn.2]
      else pure ([] : List Insight)
    let hv := txns.filter (fun t => decide (avgTransaction * 2 < t.amount))
    let ins5 := if hv = [] then ([] : List Insight)
      else [Insight.highValue hv.length (avgTransaction * 2)]
    .ok (ins1 ++ ins2 ++ ins3 ++ ins4 ++ ins5)

/-- `computeSummary` with every division site expressed through checked
division (`pyDiv`) inside the same guards the source has
(`if data['count'] > 0 else 0`, `if grand_total > 0 else 0`,
`if len(transactions) > 0 else 0`): used to state that `get_summary` never
divides by zero. -/
def summaryDivsChecked (txns : List Txn) : Except PyError SummaryResult := do
  let cd := categoryData txns
  let grandTotal := (cd.map (fun p => p.2.1)).sum
  let rows ← cd.mapM (fun p => do
    let total : ℚ := p.2.1
    let count : ℕ := p.2.2.1
    let amounts := p.2.2.2.map Prod.fst
    let avg ← if 0 < count then pyDiv total count else pure 0
    let pct ← if 0 < grandTotal then do
        let x ← pyDiv total grandTotal
        pure (x * 100)
      else pure 0
    pure ({ category := p.1
            total := round2 total
            count := count
            average := round2 avg
            percentage := round2 pct
            highest := match amounts with
              | [] => 0
              | x :: xs => round2 (xs.foldl max x)
            lowest := match amounts with
              | [] => 0
              | x :: xs => round2 (xs.foldl min x) } : CatRow))
  let oa ← if 0 < txns.length then do
      let x ← pyDiv grandTotal txns.length
      pure (round2 x)
    else pure 0
  let sortedRows := pySort rowGT rows
  .ok { summary := sortedRows
        grand_total := round2 grandTotal
        categories_count := sortedRows.length
        total_transactions := txns.length
        overall_average := oa }

/-! ### Lemmas about the stable sort -/

/-- The order a stable sort guarantees: `a` precedes `b` either because the
comparator puts it strictly first, or because they tie and `a` already
preceded `b` (witnessed by `R`). -/
def tieStable {α : Type} (lt : α → α → Bool) (R : α → α → Prop) (a b : α) : Prop :=
  lt a b = true ∨ (lt a b = false ∧ lt b a = false ∧ R a b)

theorem pyInsert_perm {α : Type} (lt : α → α → Bool) (x : α) (l : List α) :
    (pyInsert lt x l).Perm (x :: l) := by
  induction l with
  | nil => simp [pyInsert]
  | cons y ys ih =>
    unfold pyInsert
    by_cases h : lt x y
    · simp [h]
    · simp only [h, if_neg, Bool.false_eq_true, not_false_iff, ite_false]
      exact (ih.cons y).trans (List.Perm.swap x y ys)

theorem pyInsert_mem {α : Type} (lt : α → α → Bool) (x z : α) (l : List α) :
    z ∈ pyInsert lt x l ↔ z = x ∨ z ∈ l := by
  rw [(pyInsert_perm lt x l).mem_iff, List.mem_cons]

theorem pySort_go_perm {α : Type} (lt : α → α → Bool) :
    ∀ (l acc : List α),
      (l.foldl (fun a x => pyInsert lt x a) acc).Perm (acc ++ l)
  | [], acc => by simp
  | x :: xs, acc => by
    rw [List.foldl_cons]
    refine (pySort_go_perm lt xs (pyInsert lt x acc)).trans ?_
    refine (((pyInsert_perm lt x acc).append_right xs).trans ?_)
    exact List.perm_middle.symm

theorem pySort_perm {α : Type} (lt : α → α → Bool) (l : List α) :
    (pySort lt l).Perm l := by
  simpa using pySort_go_perm lt l []

theorem pySort_length {α : Type} (lt : α → α → Bool) (l : List α) :
    (pySort lt l).length = l.length :=
  (pySort_perm lt l).length_eq

theorem pyInsert_pairwise {α : Type} (lt : α → α → Bool) (R : α → α → Prop)
    (htr : ∀ a b c, lt a b = true → lt b c = true → lt a c = true)
    (htie : ∀ a b c, lt a b = true → lt b c = false → lt c b = false → lt a c = true)
    (x : α) :
    ∀ (acc : List α), acc.Pairwise (tieStable lt R) → (∀ y ∈ acc, R y x) →
      (pyInsert lt x acc).Pairwise (tieStable lt R)
  | [], _, _ => by simp [pyInsert, tieStable]
  | y :: ys, hacc, hx => by
    rw [List.pairwise_cons] at hacc
    unfold pyInsert
    by_cases h : lt x y
    · simp only [h, ite_true]
      refine List.pairwise_cons.mpr ⟨?_, List.pairwise_cons.mpr hacc⟩
      intro z hz
      rcases List.mem_cons.mp hz with hzy | hzys
      · subst hzy; exact Or.inl h
      · rcases hacc.1 z hzys with hyz | ⟨hyz, hzy, _⟩
        · exact Or.inl (htr x y z h hyz)
        · exact Or.inl (htie x y z h hyz hzy)
    · have hxy : lt x y = false := by simpa using h
      simp only [h, Bool.false_eq_true, not_false_iff, ite_false]
      refine List.pairwise_cons.mpr ⟨?_, ?_⟩
      · intro z hz
        rcases (pyInsert_mem lt x z ys).mp hz with hzx | hzys
        · subst hzx
          by_cases hyx : lt y z
          · exact Or.inl hyx
          · exact Or.inr ⟨by simpa using hyx, hxy, hx y (List.mem_cons_self y ys)⟩
        · exact hacc.1 z hzys
      · exact pyInsert_pairwise lt R htr htie x ys hacc.2
          (fun z hz => hx z (List.mem_cons_of_mem y hz))

theorem pySort_go_pairwise {α : Type} (lt : α → α → Bool) (R : α → α → Prop)
    (htr : ∀ a b c, lt a b = true → lt b c = true → lt a c = true)
    (htie : ∀ a b c, lt a b = true → lt b c = false → lt c b = false → lt a c = true) :
    ∀ (l acc : List α), acc.Pairwise (tieStable lt R) →
      (∀ y ∈ acc, ∀ x ∈ l, R y x) → l.Pairwise R →
      (l.foldl (fun a x => pyInsert lt x a) acc).Pairwise (tieStable lt R)
  | [], acc, hacc, _, _ => by simpa using hacc
  | x :: xs, acc, hacc, hcross, hl => by
    rw [List.foldl_cons]
    rw [List.pairwise_cons] at hl
    refine pySort_go_pairwise lt R htr htie xs (pyInsert lt x acc) ?_ ?_ hl.2
    · exact pyInsert_pairwise lt R htr htie x acc hacc
        (fun y hy => hcross y hy x (List.mem_cons_self x xs))
    · intro y hy z hz
      rcases (pyInsert_mem lt x y acc).mp hy with hyx | hyacc
      · subst hyx; exact hl.1 z hz
      · exact hcross y hyacc z (List.mem_cons_of_mem x hz)

theorem pySort_pairwise {α : Type} (lt : α → α → Bool) (R : α → α → Prop)
    (htr : ∀ a b c, lt a b = true → lt b c = true → lt a c = true)
    (htie : ∀ a b c, lt a b = true → lt b c = false → lt c b = false → lt a c = true)
    (l : List α) (hl : l.Pairwise R) :
    (pySort lt l).Pairwise (tieStable lt R) :=
  pySort_go_pairwise lt R htr htie l [] (by simp) (by simp) hl

/-- Stable sort with a comparator meaning "strictly greater key" (Python
`reverse=True`): the output is descending in the key, and key ties preserve
any order `R` the input was pairwise consistent with. -/
theorem pySort_key_desc {α κ : Type} [LinearOrder κ] (key : α → κ)
    (lt : α → α → Bool) (hlt : ∀ a b, lt a b = true ↔ key b < key a)
    (R : α → α → Prop) (l : List α) (hl : l.Pairwise R) :
    (pySort lt l).Pairwise
      (fun a b => key b < key a ∨ (key a = key b ∧ R a b)) := by
  have hltf : ∀ a b, lt a b = false ↔ ¬ key b < key a := by
    intro a b
    rw [← hlt a b]
    simp
  have h := pySort_pairwise lt R
    (fun a b c hab hbc => by
      rw [hlt] at hab hbc ⊢
      exact hbc.trans hab)
    (fun a b c hab hbc hcb => by
      rw [hlt] at hab ⊢
      rw [hltf] at hbc hcb
      have hbceq : key b = key c := le_antisymm (not_lt.mp hbc) (not_lt.mp hcb)
      exact hbceq ▸ hab)
    l hl
  refine h.imp ?_
  intro a b hab
  rcases hab with hab | ⟨h1, h2, h3⟩
  · exact Or.inl ((hlt a b).mp hab)
  · rw [hltf] at h1 h2
    exact Or.inr ⟨le_antisymm (not_lt.mp h1) (not_lt.mp h2), h3⟩

/-- Stable sort with a comparator meaning "strictly smaller key": ascending
output, key ties preserve `R`. -/
theorem pySort_key_asc {α κ : Type} [LinearOrder κ] (key : α → κ)
    (lt : α → α → Bool) (hlt : ∀ a b, lt a b = true ↔ key a < key b)
    (R : α → α → Prop) (l : List α) (hl : l.Pairwise R) :
    (pySort lt l).Pairwise
      (fun a b => key a < key b ∨ (key a = key b ∧ R a b)) := by
  have hltf : ∀ a b, lt a b = false ↔ ¬ key a < key b := by
    intro a b
    rw [← hlt a b]
    simp
  have h := pySort_pairwise lt R
    (fun a b c hab hbc => by
      rw [hlt] at hab hbc ⊢
      exact hab.trans hbc)
    (fun a b c hab hbc hcb => by
      rw [hlt] at hab ⊢
      rw [hltf] at hbc hcb
      have hbceq : key b = key c := le_antisymm (not_lt.mp hcb) (not_lt.mp hbc)
      exact hbceq ▸ hab)
    l hl
  refine h.imp ?_
  intro a b hab
  rcases hab with hab | ⟨h1, h2, h3⟩
  · exact Or.inl ((hlt a b).mp hab)
  · rw [hltf] at h1 h2
    exact Or.inr ⟨le_antisymm (not_lt.mp h2) (not_lt.mp h1), h3⟩

theorem pairwise_trivial {α : Type} (l : List α) :
    l.Pairwise (fun _ _ => True) := by
  induction l with
  | nil => exact List.Pairwise.nil
  | cons x xs ih => exact List.pairwise_cons.mpr ⟨fun _ _ => trivial, ih⟩

/-! ### Lemmas about insertion-ordered dicts -/

theorem pyUpd_ne_nil {β : Type} (l : List (String × β)) (k : String) (f : β → β)
    (d : β) : pyUpd l k f d ≠ [] := by
  cases l with
  | nil => simp [pyUpd]
  | cons p rest =>
    unfold pyUpd
    by_cases h : p.1 = k <;> simp [h]

theorem keys_pyUpd {β : Type} (l : List (String × β)) (k : String) (f : β → β)
    (d : β) :
    (pyUpd l k f d).map Prod.fst =
      if k ∈ l.map Prod.fst then l.map Prod.fst else l.map Prod.fst ++ [k] := by
  induction l with
  | nil => simp [pyUpd]
  | cons p rest ih =>
    unfold pyUpd
    by_cases h : p.1 = k
    · simp [h]
    · have hk : (k ∈ p.1 :: rest.map Prod.fst) ↔ k ∈ rest.map Prod.fst := by
        simp only [List.mem_cons]
        constructor
        · rintro (rfl | hm)
          · exact absurd rfl h
          · exact hm
        · exact Or.inr
      by_cases hm : k ∈ rest.map Prod.fst
      · simp only [h, ite_false, List.map_cons, ih, hm, ite_true]
        rw [if_pos (hk.mpr hm)]
      · simp only [h, ite_false, List.map_cons, ih, hm, ite_false]
        rw [if_neg (fun hc => hm (hk.mp hc))]
        simp

theorem pyUpd_values {β : Type} (P : β → Prop) (l : List (String × β))
    (k : String) (f : β → β) (d : β) (hl : ∀ p ∈ l, P p.2)
    (hf : ∀ b, P b → P (f b)) (hd : P (f d)) :
    ∀ p ∈ pyUpd l k f d, P p.2 := by
  induction l with
  | nil => simpa [pyUpd] using hd
  | cons q rest ih =>
    unfold pyUpd
    by_cases h : q.1 = k
    · simp only [h, ite_true]
      intro p hp
      rcases List.mem_cons.mp hp with rfl | hm
      · exact hf _ (hl q (List.mem_cons_self q rest))
      · exact hl p (List.mem_cons_of_mem q hm)
    · simp only [h, ite_false]
      intro p hp
      rcases List.mem_cons.mp hp with rfl | hm
      · exact hl p (List.mem_cons_self p rest)
      · exact ih (fun p hp => hl p (List.mem_cons_of_mem q hp)) p hm

/-- The keys a sequence of dict updates appends: the elements of `l` not yet
in `seen`, kept at their first occurrence. -/
def newKeys (seen : List String) : List String → List String
  | [] => []
  | c :: cs => if c ∈ seen then newKeys seen cs else c :: newKeys (c :: seen) cs

theorem newKeys_congr : ∀ (l s₁ s₂ : List String),
    (∀ c, c ∈ s₁ ↔ c ∈ s₂) → newKeys s₁ l = newKeys s₂ l
  | [], _, _, _ => rfl
  | c :: cs, s₁, s₂, h => by
    unfold newKeys
    by_cases hc : c ∈ s₁
    · rw [if_pos hc, if_pos ((h c).mp hc)]
      exact newKeys_congr cs s₁ s₂ h
    · rw [if_neg hc, if_neg (fun hc2 => hc ((h c).mpr hc2))]
      refine congrArg (c :: ·) (newKeys_congr cs (c :: s₁) (c :: s₂) ?_)
      intro x
      simp only [List.mem_cons]
      exact or_congr Iff.rfl (h x)

theorem mem_newKeys : ∀ (l seen : List String) (c : String),
    c ∈ newKeys seen l ↔ c ∉ seen ∧ c ∈ l
  | [], seen, c => by simp [newKeys]
  | a :: as, seen, c => by
    unfold newKeys
    by_cases ha : a ∈ seen
    · rw [if_pos ha, mem_newKeys as seen c]
      simp only [List.mem_cons]
      constructor
      · rintro ⟨h1, h2⟩; exact ⟨h1, Or.inr h2⟩
      · rintro ⟨h1, rfl | h2⟩
        · exact absurd ha h1
        · exact ⟨h1, h2⟩
    · rw [if_neg ha]
      simp only [List.mem_cons, mem_newKeys as (a :: seen) c, List.mem_cons]
      constructor
      · rintro (rfl | ⟨h1, h2⟩)
        · exact ⟨ha, Or.inl rfl⟩
        · exact ⟨fun hc => h1 (Or.inr hc), Or.inr h2⟩
      · rintro ⟨h1, rfl | h2⟩
        · exact Or.inl rfl
        · by_cases hca : c = a
          · exact Or.inl hca
          · exact Or.inr ⟨by rintro (h | h) <;> [exact hca h; exact h1 h], h2⟩

theorem newKeys_nodup : ∀ (l seen : List String), (newKeys seen l).Nodup
  | [], _ => List.nodup_nil
  | a :: as, seen => by
    unfold newKeys
    by_cases ha : a ∈ seen
    · rw [if_pos ha]; exact newKeys_nodup as seen
    · rw [if_neg ha]
      refine List.nodup_cons.mpr ⟨?_, newKeys_nodup as (a :: seen)⟩
      intro hmem
      exact ((mem_newKeys as (a :: seen) a).mp hmem).1 (List.mem_cons_self a seen)

theorem newKeys_pairwise_findIdx : ∀ (l seen : List String),
    (newKeys seen l).Pairwise
      (fun c₁ c₂ => l.findIdx (fun x => x == c₁) < l.findIdx (fun x => x == c₂))
  | [], _ => by simp [newKeys]
  | a :: as, seen => by
    unfold newKeys
    by_cases ha : a ∈ seen
    · rw [if_pos ha]
      refine (newKeys_pairwise_findIdx as seen).imp_of_mem ?_
      intro c₁ c₂ h₁ h₂ hlt
      have hne₁ : ¬ (a == c₁) = true := by
        have := ((mem_newKeys as seen c₁).mp h₁).1
        simp only [beq_iff_eq]
        rintro rfl; exact this ha
      have hne₂ : ¬ (a == c₂) = true := by
        have := ((mem_newKeys as seen c₂).mp h₂).1
        simp only [beq_iff_eq]
        rintro rfl; exact this ha
      rw [List.findIdx_cons, List.findIdx_cons]
      simp only [Bool.eq_false_iff.mpr hne₁, Bool.eq_false_iff.mpr hne₂, cond_false]
      omega
    · rw [if_neg ha]
      refine List.pairwise_cons.mpr ⟨?_, ?_⟩
      · intro c₂ h₂
        have hne₂ : ¬ (a == c₂) = true := by
          have := ((mem_newKeys as (a :: seen) c₂).mp h₂).1
          simp only [beq_iff_eq]
          rintro rfl; exact this (List.mem_cons_self a seen)
        rw [List.findIdx_cons, List.findIdx_cons]
        simp only [beq_self_eq_true, cond_true, Bool.eq_false_iff.mpr hne₂, cond_false]
        omega
      · refine (newKeys_pairwise_findIdx as (a :: seen)).imp_of_mem ?_
        intro c₁ c₂ h₁ h₂ hlt
        have hne₁ : ¬ (a == c₁) = true := by
          have := ((mem_newKeys as (a :: seen) c₁).mp h₁).1
          simp only [beq_iff_eq]
          rintro rfl; exact this (List.mem_cons_self a seen)
        have hne₂ : ¬ (a == c₂) = true := by
          have := ((mem_newKeys as (a :: seen) c₂).mp h₂).1
          simp only [beq_iff_eq]
          rintro rfl; exact this (List.mem_cons_self a seen)
        rw [List.findIdx_cons, List.findIdx_cons]
        simp only [Bool.eq_false_iff.mpr hne₁, Bool.eq_false_iff.mpr hne₂, cond_false]
        omega

theorem newKeys_cons (seen : List String) (c : String) (cs : List String) :
    newKeys seen (c :: cs)
      = if c ∈ seen then newKeys seen cs else c :: newKeys (c :: seen) cs := rfl

/-- Keys of a left fold of dict updates: the accumulator's keys followed by
the not-yet-seen keys in first-occurrence order. -/
theorem keys_foldl_pyUpd {β γ : Type} (key : γ → String) (f : γ → β → β)
    (d : γ → β) :
    ∀ (ts : List γ) (acc : List (String × β)),
      (ts.foldl (fun a t => pyUpd a (key t) (f t) (d t)) acc).map Prod.fst
        = acc.map Prod.fst ++ newKeys (acc.map Prod.fst) (ts.map key)
  | [], acc => by simp [newKeys]
  | t :: ts, acc => by
    rw [List.foldl_cons, keys_foldl_pyUpd key f d ts, List.map_cons,
      newKeys_cons, keys_pyUpd]
    by_cases hm : key t ∈ acc.map Prod.fst
    · rw [if_pos hm, if_pos hm]
    · rw [if_neg hm, if_neg hm]
      have hcongr : newKeys (acc.map Prod.fst ++ [key t]) (ts.map key)
          = newKeys (key t :: acc.map Prod.fst) (ts.map key) := by
        refine newKeys_congr _ _ _ ?_
        intro c
        simp only [List.mem_append, List.mem_cons, List.not_mem_nil, or_false]
        exact or_comm
      rw [hcongr, List.append_assoc, List.singleton_append]

theorem foldl_pyUpd_values {β γ : Type} (P : β → Prop) (key : γ → String)
    (f : γ → β → β) (d : γ → β) (hf : ∀ t b, P b → P (f t b))
    (hd : ∀ t, P (f t (d t))) :
    ∀ (ts : List γ) (acc : List (String × β)), (∀ p ∈ acc, P p.2) →
      ∀ p ∈ ts.foldl (fun a t => pyUpd a (key t) (f t) (d t)) acc, P p.2
  | [], _, hacc => hacc
  | t :: ts, acc, hacc => by
    rw [List.foldl_cons]
    exact foldl_pyUpd_values P key f d hf hd ts _
      (pyUpd_values P acc (key t) (f t) (d t) hacc (hf t) (hd t))

theorem sum_snd_pyUpd (l : List (String × ℚ)) (k : String) (a : ℚ) :
    ((pyUpd l k (fun x => x + a) 0).map Prod.snd).sum
      = (l.map Prod.snd).sum + a := by
  induction l with
  | nil => simp [pyUpd]
  | cons p rest ih =>
    unfold pyUpd
    by_cases h : p.1 = k
    · simp only [h, ite_true, List.map_cons, List.sum_cons]
      ring
    · simp only [h, ite_false, List.map_cons, List.sum_cons, ih]
      ring

theorem sum_snd_categoryTotals :
    ∀ (txns : List Txn) (acc : List (String × ℚ)),
      ((txns.foldl (fun a t => pyUpd a t.category (fun x => x + t.amount) 0) acc).map
        Prod.snd).sum = (acc.map Prod.snd).sum + (txns.map Txn.amount).sum
  | [], acc => by simp
  | t :: ts, acc => by
    rw [List.foldl_cons, sum_snd_categoryTotals ts, sum_snd_pyUpd]
    simp only [List.map_cons, List.sum_cons]
    ring

/-! ### Lemmas about validation and upload -/

theorem recordCheck_none_fields (r : RawTxn) (h : recordCheck r = none) :
    hasAllFields r = true := by
  by_cases hf : hasAllFields r
  · exact hf
  · simp [recordCheck, hf] at h

theorem validateFrom_ok : ∀ (idx : ℕ) (rs : List RawTxn) (ts : List Txn),
    validateFrom idx rs = .ok ts →
    ts.length = rs.length ∧ (∀ t ∈ ts, 0 ≤ t.amount) ∧
      (∀ r ∈ rs, recordCheck r = none)
  | _, [], ts, h => by
    simp only [validateFrom] at h
    cases h
    simp
  | idx, r :: rest, ts, h => by
    obtain ⟨oi, oa, oc, od⟩ := r
    simp only [validateFrom] at h
    cases oi with
    | none => cases oa <;> simp at h
    | some i =>
      cases oa with
      | none => cases oc <;> cases od <;> simp at h
      | some am =>
        cases oc with
        | none => cases od <;> simp at h
        | some c =>
          cases od with
          | none => simp at h
          | some d =>
            cases am with
            | none => simp at h
            | some q =>
              dsimp only at h
              by_cases hq : q < 0
              · rw [if_pos hq] at h; cases h
              · rw [if_neg hq] at h
                cases hres : validateFrom (idx + 1) rest with
                | error msg => rw [hres] at h; cases h
                | ok ts' =>
                  rw [hres] at h
                  cases h
                  obtain ⟨hlen, hamt, hchk⟩ := validateFrom_ok (idx + 1) rest ts' hres
                  refine ⟨by simp [hlen], ?_, ?_⟩
                  · intro t ht
                    rcases List.mem_cons.mp ht with rfl | hm
                    · simpa [mkTxn] using not_lt.mp hq
                    · exact hamt t hm
                  · intro r' hr'
                    rcases List.mem_cons.mp hr' with rfl | hm
                    · simp [recordCheck, hasAllFields, hq]
                    · exact hchk r' hm

theorem validateFrom_cons_err : ∀ (idx : ℕ) (r : RawTxn) (rest : List RawTxn)
    (e : RecErr), recordCheck r = some e →
    validateFrom idx (r :: rest) = .error (errMsg e idx)
  | idx, ⟨none, _, _, _⟩, rest, e, h => by
    simp only [recordCheck, hasAllFields] at h
    rw [if_pos (by simp)] at h
    cases h
    simp [validateFrom]
  | idx, ⟨some i, none, _, _⟩, rest, e, h => by
    simp only [recordCheck, hasAllFields] at h
    rw [if_pos (by simp)] at h
    cases h
    simp [validateFrom]
  | idx, ⟨some i, some am, none, _⟩, rest, e, h => by
    simp only [recordCheck, hasAllFields] at h
    rw [if_pos (by simp)] at h
    cases h
    cases am <;> simp [validateFrom]
  | idx, ⟨some i, some am, some c, none⟩, rest, e, h => by
    simp only [recordCheck, hasAllFields] at h
    rw [if_pos (by simp)] at h
    cases h
    cases am <;> simp [validateFrom]
  | idx, ⟨some i, some none, some c, some d⟩, rest, e, h => by
    simp only [recordCheck, hasAllFields] at h
    rw [if_neg (by simp)] at h
    cases h
    simp [validateFrom]
  | idx, ⟨some i, some (some q), some c, some d⟩, rest, e, h => by
    simp only [recordCheck, hasAllFields] at h
    rw [if_neg (by simp)] at h
    by_cases hq : q < 0
    · rw [if_pos hq] at h
      cases h
      simp [validateFrom, hq]
    · rw [if_neg hq] at h
      cases h

theorem validateFrom_cons_pass : ∀ (idx : ℕ) (r : RawTxn) (rest : List RawTxn),
    recordCheck r = none → ∀ msg,
    (validateFrom idx (r :: rest) = .error msg ↔
      validateFrom (idx + 1) rest = .error msg)
  | idx, ⟨none, _, _, _⟩, rest, h, msg => by
    simp only [recordCheck, hasAllFields] at h
    rw [if_pos (by simp)] at h
    cases h
  | idx, ⟨some i, none, _, _⟩, rest, h, msg => by
    simp only [recordCheck, hasAllFields] at h
    rw [if_pos (by simp)] at h
    cases h
  | idx, ⟨some i, some am, none, _⟩, rest, h, msg => by
    simp only [recordCheck, hasAllFields] at h
    rw [if_pos (by simp)] at h
    cases h
  | idx, ⟨some i, some am, some c, none⟩, rest, h, msg => by
    simp only [recordCheck, hasAllFields] at h
    rw [if_pos (by simp)] at h
    cases h
  | idx, ⟨some i, some none, some c, some d⟩, rest, h, msg => by
    simp only [recordCheck, hasAllFields] at h
    rw [if_neg (by simp)] at h
    cases h
  | idx, ⟨some i, some (some q), some c, some d⟩, rest, h, msg => by
    simp only [recordCheck, hasAllFields] at h
    rw [if_neg (by simp)] at h
    by_cases hq : q < 0
    · rw [if_pos hq] at h; cases h
    · cases hres : validateFrom (idx + 1) rest with
      | error msg' => simp [validateFrom, hq, hres]
      | ok ts' => simp [validateFrom, hq, hres]

theorem validateFrom_at : ∀ (idx : ℕ) (rs : List RawTxn) (i : ℕ) (r : RawTxn)
    (e : RecErr), rs[i]? = some r → recordCheck r = some e →
    (∀ j r', j < i → rs[j]? = some r' → recordCheck r' = none) →
    validateFrom idx rs = .error (errMsg e (idx + i))
  | _, [], i, _, _, hget, _, _ => by simp at hget
  | idx, r₀ :: rest, 0, r, e, hget, hchk, _ => by
    rw [List.getElem?_cons_zero] at hget
    cases hget
    simpa using validateFrom_cons_err idx r₀ rest e hchk
  | idx, r₀ :: rest, i + 1, r, e, hget, hchk, hpre => by
    rw [List.getElem?_cons_succ] at hget
    have h0 : recordCheck r₀ = none :=
      hpre 0 r₀ (Nat.succ_pos i) (by simp)
    have hrec := validateFrom_at (idx + 1) rest i r e hget hchk
      (fun j r' hj hg => hpre (j + 1) r' (by omega)
        (by rw [List.getElem?_cons_succ]; exact hg))
    rw [validateFrom_cons_pass idx r₀ rest h0]
    have harith : idx + (i + 1) = idx + 1 + i := by omega
    rw [harith]
    exact hrec

theorem validateFrom_first_error : ∀ (rs : List RawTxn) (idx : ℕ),
    (∃ r ∈ rs, (recordCheck r).isSome) →
    ∃ i r e, rs[i]? = some r ∧ recordCheck r = some e ∧
      (∀ j r', j < i → rs[j]? = some r' → recordCheck r' = none) ∧
      validateFrom idx rs = .error (errMsg e (idx + i))
  | [], _, h => by simp at h
  | r₀ :: rest, idx, h => by
    by_cases h0 : (recordCheck r₀).isSome
    · obtain ⟨e, he⟩ := Option.isSome_iff_exists.mp h0
      refine ⟨0, r₀, e, by simp, he, ?_, ?_⟩
      · intro j r' hj
        omega
      · simpa using validateFrom_cons_err idx r₀ rest e he
    · have h0n : recordCheck r₀ = none := by
        cases hrc : recordCheck r₀ with
        | none => rfl
        | some e => rw [hrc] at h0; simp at h0
      have hrest : ∃ r ∈ rest, (recordCheck r).isSome := by
        obtain ⟨r, hm, hs⟩ := h
        rcases List.mem_cons.mp hm with rfl | hm'
        · rw [h0n] at hs; simp at hs
        · exact ⟨r, hm', hs⟩
      obtain ⟨i, r, e, hget, hchk, hpre, herr⟩ :=
        validateFrom_first_error rest (idx + 1) hrest
      refine ⟨i + 1, r, e, by simpa using hget, hchk, ?_, ?_⟩
      · intro j r' hj hg
        cases j with
        | zero =>
          rw [List.getElem?_cons_zero] at hg
          cases hg
          exact h0n
        | succ j' =>
          rw [List.getElem?_cons_succ] at hg
          exact hpre j' r' (by omega) hg
      · rw [validateFrom_cons_pass idx r₀ rest h0n]
        have harith : idx + (i + 1) = idx + 1 + i := by omega
        rw [harith]
        exact herr

theorem upload_list_ok {σ : Type} (s : StoreState σ) (rs : List RawTxn)
    (ts : List Txn) (hne : rs ≠ []) (hv : validateFrom 0 rs = .ok ts) :
    upload s (.list rs)
      = (⟨ts, none⟩, .ok200 ts.length ((ts.map Txn.category).eraseDups)) := by
  simp [upload, hne, hv]

theorem upload_list_err {σ : Type} (s : StoreState σ) (rs : List RawTxn)
    (msg : String) (hne : rs ≠ []) (hv : validateFrom 0 rs = .error msg) :
    upload s (.list rs) = (s, .err400 msg) := by
  simp [upload, hne, hv]

theorem getSummary_transactions (s : StoreState SummaryResult) :
    (getSummary s).1.transactions = s.transactions := by
  unfold getSummary
  cases s.cache with
  | some r => rfl
  | none =>
    by_cases h : s.transactions = [] <;> simp [h]

/-! ### Claims C2, C3, C4 -/

/-- C2: every reachable store state holds only transactions with all four
fields present (enforced by the `Txn` record built exclusively by validation)
and non-negative `amount`; moreover a batch accepted with HTTP 200 consists
only of records that had all four keys, and the stored result again has only
non-negative amounts. -/
theorem c2_stored_txn_invariant :
    (∀ s : StoreState SummaryResult, Reachable s →
      ∀ t ∈ s.transactions, 0 ≤ t.amount) ∧
    (∀ (s : StoreState SummaryResult) (rs : List RawTxn) (n : ℕ)
      (cats : List String), (upload s (.list rs)).2 = .ok200 n cats →
        (∀ r ∈ rs, hasAllFields r = true) ∧
        ∀ t ∈ (upload s (.list rs)).1.transactions, 0 ≤ t.amount) := by
  constructor
  · intro s h
    induction h with
    | init => simp
    | upload_step s' b _ ih =>
      cases b with
      | notList => simpa [upload] using ih
      | list rs =>
        by_cases hne : rs = []
        · subst hne; simpa [upload] using ih
        · cases hv : validateFrom 0 rs with
          | error msg => rw [upload_list_err s' rs msg hne hv]; exact ih
          | ok ts =>
            rw [upload_list_ok s' rs ts hne hv]
            exact (validateFrom_ok 0 rs ts hv).2.1
    | summary_step s' _ ih => rw [getSummary_transactions]; exact ih
  · intro s rs n cats h
    by_cases hne : rs = []
    · subst hne; simp [upload] at h
    · cases hv : validateFrom 0 rs with
      | error msg =>
        rw [upload_list_err s rs msg hne hv] at h
        exact absurd h (by simp)
      | ok ts =>
        obtain ⟨_, hamt, hchk⟩ := validateFrom_ok 0 rs ts hv
        rw [upload_list_ok s rs ts hne hv]
        exact ⟨fun r hr => recordCheck_none_fields r (hchk r hr), hamt⟩

theorem c2_witness :
    (∀ t ∈ ((upload (⟨[], none⟩ : StoreState SummaryResult)
        (.list [⟨some "1", some (some 5), some "Food",
          some "2025-01-02"⟩])).1).transactions, 0 ≤ t.amount) ∧
    (∀ r ∈ [(⟨some "1", some (some 5), some "Food",
        some "2025-01-02"⟩ : RawTxn)], hasAllFields r = true) :=
  ⟨c2_stored_txn_invariant.1 _ (Reachable.upload_step _ _ Reachable.init),
   (c2_stored_txn_invariant.2 ⟨[], none⟩
      [⟨some "1", some (some 5), some "Food", some "2025-01-02"⟩]
      1 ["Food"] (by decide)).1⟩

/-- C3: a batch containing a failing record is rejected all-or-nothing:
the store (transaction list and cache alike) is unchanged, the response is a
400 error, and its message names the index of the first failing record (all
records before it pass their checks). -/
theorem c3_all_or_nothing (s : StoreState SummaryResult) (rs : List RawTxn)
    (h : ∃ r ∈ rs, (recordCheck r).isSome) :
    (upload s (.list rs)).1 = s ∧
    ∃ i r e, rs[i]? = some r ∧ recordCheck r = some e ∧
      (∀ j r', j < i → rs[j]? = some r' → recordCheck r' = none) ∧
      (upload s (.list rs)).2 = .err400 (errMsg e i) := by
  have hne : rs ≠ [] := by rintro rfl; simp at h
  obtain ⟨i, r, e, hget, hchk, hpre, herr⟩ := validateFrom_first_error rs 0 h
  rw [Nat.zero_add] at herr
  rw [upload_list_err s rs _ hne herr]
  exact ⟨rfl, i, r, e, hget, hchk, hpre, rfl⟩

theorem c3_witness :
    ((upload (⟨[], none⟩ : StoreState SummaryResult)
        (.list [⟨none, none, none, none⟩])).1 = ⟨[], none⟩) ∧
    ∃ i r e, [(⟨none, none, none, none⟩ : RawTxn)][i]? = some r ∧
      recordCheck r = some e ∧
      (∀ j r', j < i → [(⟨none, none, none, none⟩ : RawTxn)][j]? = some r' →
        recordCheck r' = none) ∧
      (upload (⟨[], none⟩ : StoreState SummaryResult)
        (.list [⟨none, none, none, none⟩])).2 = .err400 (errMsg e i) :=
  c3_all_or_nothing ⟨[], none⟩ [⟨none, none, none, none⟩] (by decide)

/-- C4: when the first failing record of a batch is missing one of the four
required keys, the upload answers 400 with the message naming that record's
index and the missing-fields reason. -/
theorem c4_missing_fields_400 (s : StoreState SummaryResult) (rs : List RawTxn)
    (i : ℕ) (r : RawTxn) (hget : rs[i]? = some r)
    (hchk : recordCheck r = some .missing)
    (hpre : ∀ j r', j < i → rs[j]? = some r' → recordCheck r' = none) :
    (upload s (.list rs)).2 = .err400 ("Transaction at index " ++ toString i ++
      " is missing required fields: id, amount, category, date") := by
  have hne : rs ≠ [] := by rintro rfl; simp at hget
  have herr := validateFrom_at 0 rs i r .missing hget hchk hpre
  rw [Nat.zero_add] at herr
  rw [upload_list_err s rs _ hne herr]
  rfl

theorem c4_witness :
    (upload (⟨[], none⟩ : StoreState SummaryResult)
      (.list [⟨some "1", some (some 5), some "Food", some "2025-01-02"⟩,
              ⟨some "2", none, some "X", some "d"⟩])).2
      = .err400 ("Transaction at index " ++ toString 1 ++
          " is missing required fields: id, amount, category, date") :=
  c4_missing_fields_400 _ _ 1 ⟨some "2", none, some "X", some "d"⟩
    (by decide) (by decide)
    (by
      intro j r' hj hg
      have hj0 : j = 0 := by omega
      subst hj0
      rw [List.getElem?_cons_zero] at hg
      cases hg
      decide)

/-! ### Claim C5 -/

theorem reachable_cache_consistent (s : StoreState SummaryResult)
    (h : Reachable s) :
    ∀ r, s.cache = some r → r = computeSummary s.transactions := by
  induction h with
  | init => intro r hr; cases hr
  | upload_step s' b _ ih =>
    cases b with
    | notList => simpa [upload] using ih
    | list rs =>
      by_cases hne : rs = []
      · subst hne; simpa [upload] using ih
      · cases hv : validateFrom 0 rs with
        | error msg => rw [upload_list_err s' rs msg hne hv]; exact ih
        | ok ts =>
          rw [upload_list_ok s' rs ts hne hv]
          intro r hr
          cases hr
  | summary_step s' _ ih =>
    unfold getSummary
    cases hc : s'.cache with
    | some r0 => exact ih
    | none =>
      by_cases ht : s'.transactions = []
      · simp only [ht, ite_true]
        intro r hr
        rw [hc] at hr
        cases hr
      · simp only [ht, ite_false]
        intro r hr
        cases hr
        rfl

/-- C5: the cache is consistent: on every reachable state a cached summary
equals the summary of the current list; straight after a successful upload,
`GET /summary` returns the summary computed from the freshly stored list; and
a repeated `GET /summary` without an intervening upload returns the identical
(cached) response. -/
theorem c5_cache_consistency :
    (∀ s : StoreState SummaryResult, Reachable s →
      ∀ r, s.cache = some r → r = computeSummary s.transactions) ∧
    (∀ (s : StoreState SummaryResult) (b : UploadBody) (n : ℕ)
      (cats : List String), (upload s b).2 = .ok200 n cats →
        (getSummary (upload s b).1).2
          = .data (computeSummary (upload s b).1.transactions)) ∧
    (∀ s : StoreState SummaryResult,
      (getSummary (getSummary s).1).2 = (getSummary s).2) := by
  refine ⟨reachable_cache_consistent, ?_, ?_⟩
  · intro s b n cats h
    cases b with
    | notList => exact absurd h (by simp [upload])
    | list rs =>
      by_cases hne : rs = []
      · subst hne; exact absurd h (by simp [upload])
      · cases hv : validateFrom 0 rs with
        | error msg =>
          rw [upload_list_err s rs msg hne hv] at h
          exact absurd h (by simp)
        | ok ts =>
          have hts : ts ≠ [] := by
            have hlen := (validateFrom_ok 0 rs ts hv).1
            intro hnil
            subst hnil
            exact hne (List.length_eq_zero.mp hlen.symm)
          rw [upload_list_ok s rs ts hne hv]
          simp [getSummary, hts]
  · intro s
    unfold getSummary
    cases hc : s.cache with
    | some r => simp [hc]
    | none =>
      by_cases ht : s.transactions = []
      · simp [ht, hc]
      · simp [ht]

theorem c5_witness :
    (getSummary (upload (⟨[], none⟩ : StoreState SummaryResult)
      (.list [⟨some "1", some (some 5), some "Food", some "2025-01-02"⟩])).1).2
      = .data (computeSummary (upload (⟨[], none⟩ : StoreState SummaryResult)
        (.list [⟨some "1", some (some 5), some "Food",
          some "2025-01-02"⟩])).1.transactions) :=
  c5_cache_consistency.2.1 _ _ 1 ["Food"] (by decide)

/-! ### Claim C6 -/

/-- Index of the first transaction of a given category in the stored list. -/
def firstOccIdx (txns : List Txn) (c : String) : ℕ :=
  txns.findIdx (fun t => t.category == c)

theorem findIdx_map_category : ∀ (txns : List Txn) (c : String),
    (txns.map Txn.category).findIdx (fun x => x == c) = firstOccIdx txns c
  | [], _ => rfl
  | t :: ts, c => by
    unfold firstOccIdx
    rw [List.map_cons, List.findIdx_cons, List.findIdx_cons]
    cases h : (t.category == c) with
    | true => rfl
    | false => rw [cond_false, cond_false, findIdx_map_category ts c]; rfl

theorem categoryData_pairwise (txns : List Txn) :
    (categoryData txns).Pairwise
      (fun p q => firstOccIdx txns p.1 < firstOccIdx txns q.1) := by
  have hkeys : (categoryData txns).map Prod.fst
      = newKeys [] (txns.map Txn.category) := by
    have h := keys_foldl_pyUpd (β := CatAcc) (γ := Txn) Txn.category
      (fun t v => (v.1 + t.amount, v.2.1 + 1, v.2.2 ++ [(t.amount, t.date)]))
      (fun _ => ((0 : ℚ), (0 : ℕ), ([] : List (ℚ × String)))) txns []
    simpa using h
  have hp := newKeys_pairwise_findIdx (txns.map Txn.category) []
  rw [← hkeys] at hp
  refine (List.pairwise_map.mp hp).imp ?_
  intro p q h
  rwa [findIdx_map_category, findIdx_map_category] at h

theorem summaryRows_pairwise (txns : List Txn) :
    (computeSummary txns).summary.Pairwise
      (fun a b => b.total < a.total ∨
        (a.total = b.total ∧
          firstOccIdx txns a.category < firstOccIdx txns b.category)) := by
  have hrows : ((categoryData txns).map
      (mkCatRow ((categoryData txns).map (fun p => p.2.1)).sum)).Pairwise
      (fun a b => firstOccIdx txns a.category < firstOccIdx txns b.category) := by
    refine List.pairwise_map.mpr ?_
    refine (categoryData_pairwise txns).imp ?_
    intro p q h
    exact h
  exact pySort_key_desc CatRow.total rowGT
    (fun a b => by simp [rowGT]) _ _ hrows

/-- C6: on every reachable state with a non-empty list, `GET /summary` serves
the summary of the current list, and its `summary` rows are sorted descending
by (rounded) `total`, with ties ordered by the first occurrence of each
category in the stored transaction list. -/
theorem c6_summary_sorted_stable (s : StoreState SummaryResult)
    (hre : Reachable s) (hne : s.transactions ≠ []) :
    (getSummary s).2 = .data (computeSummary s.transactions) ∧
    (computeSummary s.transactions).summary.Pairwise
      (fun a b => b.total < a.total ∨
        (a.total = b.total ∧
          firstOccIdx s.transactions a.category
            < firstOccIdx s.transactions b.category)) := by
  constructor
  · unfold getSummary
    cases hc : s.cache with
    | some r =>
      have hr := reachable_cache_consistent s hre r hc
      simp [hr]
    | none => simp [hne]
  · exact summaryRows_pairwise s.transactions

theorem c6_witness :
    (getSummary (upload (⟨[], none⟩ : StoreState SummaryResult)
      (.list [⟨some "1", some (some 100), some "Food", some "2025-01-05"⟩,
              ⟨some "2", some (some 50), some "Travel",
                some "2025-02-10"⟩])).1).2
      = .data (computeSummary (upload (⟨[], none⟩ : StoreState SummaryResult)
          (.list [⟨some "1", some (some 100), some "Food", some "2025-01-05"⟩,
                  ⟨some "2", some (some 50), some "Travel",
                    some "2025-02-10"⟩])).1.transactions) ∧
    (computeSummary (upload (⟨[], none⟩ : StoreState SummaryResult)
        (.list [⟨some "1", some (some 100), some "Food", some "2025-01-05"⟩,
                ⟨some "2", some (some 50), some "Travel",
                  some "2025-02-10"⟩])).1.transactions).summary.Pairwise
      (fun a b => b.total < a.total ∨
        (a.total = b.total ∧
          firstOccIdx (upload (⟨[], none⟩ : StoreState SummaryResult)
            (.list [⟨some "1", some (some 100), some "Food", some "2025-01-05"⟩,
                    ⟨some "2", some (some 50), some "Travel",
                      some "2025-02-10"⟩])).1.transactions a.category
            < firstOccIdx (upload (⟨[], none⟩ : StoreState SummaryResult)
            (.list [⟨some "1", some (some 100), some "Food", some "2025-01-05"⟩,
                    ⟨some "2", some (some 50), some "Travel",
                      some "2025-02-10"⟩])).1.transactions b.category)) :=
  c6_summary_sorted_stable _ (Reachable.upload_step _ _ Reachable.init)
    (by decide)

/-! ### Lemmas about date parsing and month keys -/

theorem readDigitsAux_spec : ∀ (l : List Char) (val cnt : ℕ),
    readDigitsAux val cnt l
      = (natOfDigits val (l.takeWhile Char.isDigit),
         cnt + (l.takeWhile Char.isDigit).length,
         l.dropWhile Char.isDigit)
  | [], val, cnt => by simp [readDigitsAux, natOfDigits]
  | c :: cs, val, cnt => by
    by_cases hc : c.isDigit
    · unfold readDigitsAux
      rw [if_pos hc, readDigitsAux_spec cs, List.takeWhile_cons_of_pos hc,
        List.dropWhile_cons_of_pos hc]
      simp only [natOfDigits, List.foldl_cons, List.length_cons, Prod.mk.injEq]
      exact ⟨trivial, by omega, trivial⟩
    · unfold readDigitsAux
      rw [if_neg hc, List.takeWhile_cons_of_neg (by simpa using hc),
        List.dropWhile_cons_of_neg (by simpa using hc)]
      simp [natOfDigits]

theorem digitChar_isDigit_roundtrip {c : Char} (h : c.isDigit = true) :
    digitChar (c.toNat - 48) = c := by
  have hb : 48 ≤ c.toNat ∧ c.toNat ≤ 57 := by
    simp only [Char.isDigit, Bool.and_eq_true, decide_eq_true_eq] at h
    exact ⟨h.1, h.2⟩
  unfold digitChar
  have he : 48 + (c.toNat - 48) = c.toNat := by omega
  rw [he, Char.ofNat_toNat]

theorem isDigit_toNat_bounds {c : Char} (h : c.isDigit = true) :
    48 ≤ c.toNat ∧ c.toNat ≤ 57 := by
  simp only [Char.isDigit, Bool.and_eq_true, decide_eq_true_eq] at h
  exact ⟨h.1, h.2⟩

theorem length_four_destruct {α : Type} (l : List α) (h : l.length = 4) :
    ∃ a b c d, l = [a, b, c, d] := by
  match l with
  | [a, b, c, d] => exact ⟨a, b, c, d, rfl⟩
  | [] => simp at h
  | [_] => simp at h
  | [_, _] => simp at h
  | [_, _, _] => simp at h
  | _ :: _ :: _ :: _ :: _ :: _ => simp at h

theorem length_two_destruct {α : Type} (l : List α) (h : l.length = 2) :
    ∃ a b, l = [a, b] := by
  match l with
  | [a, b] => exact ⟨a, b, rfl⟩
  | [] => simp at h
  | [_] => simp at h
  | _ :: _ :: _ :: _ => simp at h

theorem pad4_roundtrip (c1 c2 c3 c4 : Char) (h1 : c1.isDigit = true)
    (h2 : c2.isDigit = true) (h3 : c3.isDigit = true) (h4 : c4.isDigit = true) :
    (pad4 (natOfDigits 0 [c1, c2, c3, c4])).data = [c1, c2, c3, c4] := by
  obtain ⟨b1, b1'⟩ := isDigit_toNat_bounds h1
  obtain ⟨b2, b2'⟩ := isDigit_toNat_bounds h2
  obtain ⟨b3, b3'⟩ := isDigit_toNat_bounds h3
  obtain ⟨b4, b4'⟩ := isDigit_toNat_bounds h4
  have hv : natOfDigits 0 [c1, c2, c3, c4]
      = ((c1.toNat - 48) * 1000 + (c2.toNat - 48) * 100
          + (c3.toNat - 48) * 10 + (c4.toNat - 48)) := by
    simp only [natOfDigits, List.foldl_cons, List.foldl_nil]
    ring
  rw [hv]
  unfold pad4
  have e1 : ((c1.toNat - 48) * 1000 + (c2.toNat - 48) * 100
      + (c3.toNat - 48) * 10 + (c4.toNat - 48)) / 1000 % 10 = c1.toNat - 48 := by
    omega
  have e2 : ((c1.toNat - 48) * 1000 + (c2.toNat - 48) * 100
      + (c3.toNat - 48) * 10 + (c4.toNat - 48)) / 100 % 10 = c2.toNat - 48 := by
    omega
  have e3 : ((c1.toNat - 48) * 1000 + (c2.toNat - 48) * 100
      + (c3.toNat - 48) * 10 + (c4.toNat - 48)) / 10 % 10 = c3.toNat - 48 := by
    omega
  have e4 : ((c1.toNat - 48) * 1000 + (c2.toNat - 48) * 100
      + (c3.toNat - 48) * 10 + (c4.toNat - 48)) % 10 = c4.toNat - 48 := by
    omega
  rw [e1, e2, e3, e4, digitChar_isDigit_roundtrip h1, digitChar_isDigit_roundtrip h2,
    digitChar_isDigit_roundtrip h3, digitChar_isDigit_roundtrip h4]

theorem pad2_roundtrip (c1 c2 : Char) (h1 : c1.isDigit = true)
    (h2 : c2.isDigit = true) :
    (pad2 (natOfDigits 0 [c1, c2])).data = [c1, c2] := by
  obtain ⟨b1, b1'⟩ := isDigit_toNat_bounds h1
  obtain ⟨b2, b2'⟩ := isDigit_toNat_bounds h2
  have hv : natOfDigits 0 [c1, c2]
      = ((c1.toNat - 48) * 10 + (c2.toNat - 48)) := by
    simp only [natOfDigits, List.foldl_cons, List.foldl_nil]
    ring
  rw [hv]
  unfold pad2
  have e1 : ((c1.toNat - 48) * 10 + (c2.toNat - 48)) / 10 % 10
      = c1.toNat - 48 := by omega
  have e2 : ((c1.toNat - 48) * 10 + (c2.toNat - 48)) % 10 = c2.toNat - 48 := by
    omega
  rw [e1, e2, digitChar_isDigit_roundtrip h1, digitChar_isDigit_roundtrip h2]

theorem parseDate_structure (s : String) (y m d : ℕ)
    (h : parseDate s = some (y, m, d)) :
    ∃ ys ms ds : List Char,
      s.data = ys ++ '-' :: (ms ++ '-' :: ds) ∧
      (∀ c ∈ ys, c.isDigit = true) ∧ (∀ c ∈ ms, c.isDigit = true) ∧
      (∀ c ∈ ds, c.isDigit = true) ∧
      ys.length = 4 ∧ 1 ≤ ms.length ∧ ms.length ≤ 2 ∧
      1 ≤ ds.length ∧ ds.length ≤ 2 ∧
      natOfDigits 0 ys = y ∧ natOfDigits 0 ms = m ∧ natOfDigits 0 ds = d := by
  simp only [parseDate, readDigitsAux_spec, Nat.zero_add] at h
  split at h
  case _ c1 r2 heq1 =>
    split at h
    case isTrue hc1 =>
      split at h
      case _ c2 r4 heq2 =>
        split at h
        case isTrue hc2 =>
          split at h
          case isTrue hcond =>
            obtain ⟨hy4, hy1, hm1, hm2, _, _, hd1, hd2, _, _, _, hnil⟩ := hcond
            cases h
            subst hc1
            subst hc2
            refine ⟨s.data.takeWhile Char.isDigit, r2.takeWhile Char.isDigit,
              r4.takeWhile Char.isDigit, ?_, ?_, ?_, ?_, hy4, hm1, hm2, hd1,
              hd2, rfl, rfl, rfl⟩
            · have hr4 : r4 = r4.takeWhile Char.isDigit := by
                conv_lhs => rw [← List.takeWhile_append_dropWhile
                  (p := Char.isDigit) (l := r4)]
                rw [hnil, List.append_nil]
              have hr2 : r2 = r2.takeWhile Char.isDigit
                  ++ '-' :: r4.takeWhile Char.isDigit := by
                conv_lhs => rw [← List.takeWhile_append_dropWhile
                  (p := Char.isDigit) (l := r2)]
                rw [heq2, ← hr4]
              conv_lhs => rw [← List.takeWhile_append_dropWhile
                (p := Char.isDigit) (l := s.data)]
              rw [heq1, ← hr2]
            · intro c hc; exact List.mem_takeWhile_imp hc
            · intro c hc; exact List.mem_takeWhile_imp hc
            · intro c hc; exact List.mem_takeWhile_imp hc
          case isFalse => cases h
        case isFalse => cases h
      case _ heq2 => cases h
    case isFalse => cases h
  case _ heq1 => cases h

theorem monthKey_data_of_padded (ys ms : List Char)
    (hys : ∀ c ∈ ys, c.isDigit = true) (hms : ∀ c ∈ ms, c.isDigit = true)
    (hly : ys.length = 4) (hlm : ms.length = 2) :
    (monthKey (natOfDigits 0 ys) (natOfDigits 0 ms)).data = ys ++ '-' :: ms := by
  obtain ⟨a1, a2, a3, a4, rfl⟩ := length_four_destruct ys hly
  obtain ⟨b1, b2, rfl⟩ := length_two_destruct ms hlm
  have hda := pad4_roundtrip a1 a2 a3 a4
    (hys a1 (by simp)) (hys a2 (by simp)) (hys a3 (by simp)) (hys a4 (by simp))
  have hdb := pad2_roundtrip b1 b2 (hms b1 (by simp)) (hms b2 (by simp))
  unfold monthKey
  rw [String.data_append, String.data_append, hda, hdb]
  rfl

/-- A parsed, fully zero-padded (10-character) date string starts with the
characters of its month key. -/
theorem parse_monthKey_padded (s : String) (y m d : ℕ)
    (h : parseDate s = some (y, m, d)) (hlen : s.length = 10) :
    ∃ rest, s.data = (monthKey y m).data ++ rest := by
  obtain ⟨ys, ms, ds, hdata, hys, hms, _, hly, hlm1, hlm2, hld1, hld2,
    hvy, hvm, _⟩ := parseDate_structure s y m d h
  have hlen' : s.data.length = 10 := hlen
  rw [hdata] at hlen'
  simp only [List.length_append, List.length_cons] at hlen'
  have hm2 : ms.length = 2 := by omega
  refine ⟨'-' :: ds, ?_⟩
  rw [hdata, ← hvy, ← hvm, monthKey_data_of_padded ys ms hys hms hly hm2]
  simp

/-! ### Lemmas about `GET /trends` -/

/-- The month key a transaction is bucketed under (the `YYYY-MM` rendering of
its parsed date); `""` is never used on dates that parse. -/
def txnMonthKey (t : Txn) : String :=
  match parseDate t.date with
  | some (y, m, _) => monthKey y m
  | none => ""

theorem monthlyDataFrom_eq_foldl : ∀ (ts : List Txn)
    (acc : List (String × MonthAcc)),
    (∀ t ∈ ts, (parseDate t.date).isSome) →
    monthlyDataFrom acc ts = .ok (ts.foldl (fun a t =>
      pyUpd a (txnMonthKey t)
        (fun v => (v.1 + t.amount, v.2.1 + 1,
          pyUpd v.2.2 t.category (fun x => x + t.amount) 0))
        ((0 : ℚ), (0 : ℕ), ([] : List (String × ℚ)))) acc)
  | [], _, _ => rfl
  | t :: ts, acc, hp => by
    obtain ⟨⟨y, m, d⟩, hpd⟩ :=
      Option.isSome_iff_exists.mp (hp t (List.mem_cons_self t ts))
    have hkey : txnMonthKey t = monthKey y m := by
      unfold txnMonthKey
      rw [hpd]
    unfold monthlyDataFrom
    rw [hpd]
    dsimp only
    rw [List.foldl_cons, ← hkey]
    exact monthlyDataFrom_eq_foldl ts _
      (fun u hu => hp u (List.mem_cons_of_mem t hu))

theorem monthlyDataFrom_error : ∀ (ts : List Txn)
    (acc : List (String × MonthAcc)) (e : PyError),
    monthlyDataFrom acc ts = .error e → ∃ msg, e = .valueError msg
  | [], acc, e, h => by simp [monthlyDataFrom] at h
  | t :: ts, acc, e, h => by
    unfold monthlyDataFrom at h
    cases hpd : parseDate t.date with
    | none =>
      rw [hpd] at h
      dsimp only at h
      cases h
      exact ⟨t.date, rfl⟩
    | some ymd =>
      obtain ⟨y, m, d⟩ := ymd
      rw [hpd] at h
      dsimp only at h
      exact monthlyDataFrom_error ts _ e h

theorem mapM_mkBucket : ∀ (l : List (String × MonthAcc)),
    (∀ p ∈ l, 0 < p.2.2.1 ∧ p.2.2.2 ≠ []) →
    ∃ bs, l.mapM mkBucket = .ok bs ∧ bs.map MonthBucket.month = l.map Prod.fst
  | [], _ => ⟨[], rfl, rfl⟩
  | p :: ps, h => by
    obtain ⟨hc, hcat⟩ := h p (List.mem_cons_self p ps)
    obtain ⟨bs, hbs, hmonths⟩ :=
      mapM_mkBucket ps (fun q hq => h q (List.mem_cons_of_mem p hq))
    have hdiv : ((p.2.2.1 : ℕ) : ℚ) ≠ 0 := Nat.cast_ne_zero.mpr (by omega)
    cases hcats : p.2.2.2 with
    | nil => exact absurd hcats hcat
    | cons q qs =>
      have hbucket : mkBucket p = .ok ⟨p.1, round2 p.2.1, p.2.2.1,
          round2 (p.2.1 / (p.2.2.1 : ℚ)),
          (qs.foldl (fun acc r => if acc.2 < r.2 then r else acc) q).1,
          (q :: qs).map (fun r => (r.1, round2 r.2))⟩ := by
        unfold mkBucket
        have h1 : pyDiv p.2.1 (p.2.2.1 : ℚ) = .ok (p.2.1 / (p.2.2.1 : ℚ)) := by
          simp [pyDiv, hdiv]
        rw [h1, hcats]
        rfl
      refine ⟨(⟨p.1, round2 p.2.1, p.2.2.1, round2 (p.2.1 / (p.2.2.1 : ℚ)),
          (qs.foldl (fun acc r => if acc.2 < r.2 then r else acc) q).1,
          (q :: qs).map (fun r => (r.1, round2 r.2))⟩ : MonthBucket) :: bs,
        ?_, ?_⟩
      · rw [List.mapM_cons, hbucket, hbs]
        rfl
      · simp [hmonths]

/-- On a non-empty store whose dates all parse, `GET /trends` succeeds with
bucket keys strictly ascending lexicographically, and every transaction's
month key occurs among the bucket keys. -/
theorem getTrends_ok (txns : List Txn) (hne : txns ≠ [])
    (hp : ∀ t ∈ txns, (parseDate t.date).isSome) :
    ∃ bs, getTrends txns = .ok (.trends bs bs.length) ∧
      bs.Pairwise (fun a b => a.month < b.month) ∧
      (∀ t ∈ txns, txnMonthKey t ∈ bs.map MonthBucket.month) ∧
      (bs.map MonthBucket.month).Perm (newKeys [] (txns.map txnMonthKey)) := by
  have hmd := monthlyDataFrom_eq_foldl txns [] hp
  have hkeys : (txns.foldl (fun a t =>
      pyUpd a (txnMonthKey t)
        (fun v => (v.1 + t.amount, v.2.1 + 1,
          pyUpd v.2.2 t.category (fun x => x + t.amount) 0))
        ((0 : ℚ), (0 : ℕ), ([] : List (String × ℚ)))) []).map Prod.fst
      = newKeys [] (txns.map txnMonthKey) := by
    simpa using keys_foldl_pyUpd txnMonthKey
      (fun t v => (v.1 + t.amount, v.2.1 + 1,
        pyUpd v.2.2 t.category (fun x => x + t.amount) 0))
      (fun _ => ((0 : ℚ), (0 : ℕ), ([] : List (String × ℚ)))) txns []
  have hvals : ∀ p ∈ (txns.foldl (fun a t =>
      pyUpd a (txnMonthKey t)
        (fun v => (v.1 + t.amount, v.2.1 + 1,
          pyUpd v.2.2 t.category (fun x => x + t.amount) 0))
        ((0 : ℚ), (0 : ℕ), ([] : List (String × ℚ)))) []),
      0 < p.2.2.1 ∧ p.2.2.2 ≠ [] := by
    refine foldl_pyUpd_values
      (fun (v : MonthAcc) => 0 < v.2.1 ∧ v.2.2 ≠ []) txnMonthKey
      (fun t v => (v.1 + t.amount, v.2.1 + 1,
        pyUpd v.2.2 t.category (fun x => x + t.amount) 0))
      (fun _ => ((0 : ℚ), (0 : ℕ), ([] : List (String × ℚ))))
      ?_ ?_ txns [] (by simp)
    · intro t b _
      exact ⟨Nat.succ_pos _, pyUpd_ne_nil _ _ _ _⟩
    · intro t
      exact ⟨Nat.succ_pos _, pyUpd_ne_nil _ _ _ _⟩
  have hperm := pySort_perm (fun (a b : String × MonthAcc) => decide (a.1 < b.1))
    (txns.foldl (fun a t =>
      pyUpd a (txnMonthKey t)
        (fun v => (v.1 + t.amount, v.2.1 + 1,
          pyUpd v.2.2 t.category (fun x => x + t.amount) 0))
        ((0 : ℚ), (0 : ℕ), ([] : List (String × ℚ)))) [])
  obtain ⟨bs, hbs, hmonths⟩ := mapM_mkBucket _
    (fun q hq => hvals q (hperm.mem_iff.mp hq))
  refine ⟨bs, ?_, ?_, ?_, ?_⟩
  · unfold getTrends
    rw [if_neg hne, hmd]
    dsimp only [Bind.bind, Except.bind]
    rw [hbs]
  · have hnodup : ((txns.foldl (fun a t =>
        pyUpd a (txnMonthKey t)
          (fun v => (v.1 + t.amount, v.2.1 + 1,
            pyUpd v.2.2 t.category (fun x => x + t.amount) 0))
          ((0 : ℚ), (0 : ℕ), ([] : List (String × ℚ)))) []).map Prod.fst).Nodup := by
      rw [hkeys]
      exact newKeys_nodup _ _
    have hpw := pySort_key_asc (Prod.fst (α := String) (β := MonthAcc))
      (fun a b => decide (a.1 < b.1)) (fun a b => by simp)
      (fun p q => p.1 ≠ q.1) _ (List.pairwise_map.mp hnodup)
    have hpw' : (pySort (fun (a b : String × MonthAcc) => decide (a.1 < b.1))
        (txns.foldl (fun a t =>
          pyUpd a (txnMonthKey t)
            (fun v => (v.1 + t.amount, v.2.1 + 1,
              pyUpd v.2.2 t.category (fun x => x + t.amount) 0))
            ((0 : ℚ), (0 : ℕ), ([] : List (String × ℚ)))) [])).Pairwise
        (fun p q => p.1 < q.1) := by
      refine hpw.imp ?_
      intro a b hab
      rcases hab with hab | ⟨he, hne'⟩
      · exact hab
      · exact absurd he hne'
    have := List.pairwise_map.mpr hpw'
    rw [← hmonths] at this
    exact List.pairwise_map.mp this
  · intro t ht
    rw [hmonths]
    have : txnMonthKey t ∈ newKeys [] (txns.map txnMonthKey) := by
      rw [mem_newKeys]
      exact ⟨by simp, List.mem_map_of_mem txnMonthKey ht⟩
    rw [← hkeys] at this
    exact ((hperm.map Prod.fst).mem_iff).mpr this
  · rw [hmonths, ← hkeys]
    exact hperm.map Prod.fst

/-! ### Claims C1 and C7 -/

theorem monthlyDataFrom_bad_date : ∀ (ts : List Txn)
    (acc : List (String × MonthAcc)),
    (∃ t ∈ ts, parseDate t.date = none) →
    ∃ msg, monthlyDataFrom acc ts = .error (.valueError msg)
  | [], _, hbad => absurd hbad (by simp)
  | t :: ts, acc, hbad => by
    unfold monthlyDataFrom
    cases hpd : parseDate t.date with
    | none => exact ⟨t.date, rfl⟩
    | some ymd =>
      obtain ⟨y, m, d⟩ := ymd
      obtain ⟨u, hu, hupd⟩ := hbad
      rcases List.mem_cons.mp hu with rfl | hu
      · rw [hpd] at hupd
        cases hupd
      · exact monthlyDataFrom_bad_date ts _ ⟨u, hu, hupd⟩

theorem getTrends_error_of_bad_date (txns : List Txn) (hne : txns ≠ [])
    (hbad : ∃ t ∈ txns, parseDate t.date = none) :
    ∃ msg, getTrends txns = .error (.valueError msg) := by
  obtain ⟨msg, hmd⟩ := monthlyDataFrom_bad_date txns [] hbad
  refine ⟨msg, ?_⟩
  unfold getTrends
  rw [if_neg hne]
  dsimp only [Bind.bind, Except.bind]
  rw [hmd]

/-- C1 (amended): on the empty store `GET /trends` answers HTTP 200, but with
the `message`/`trends` (empty list) body, not the promised
`monthly_trends`/`months_count` keys; on a non-empty store it answers HTTP 200
with the `monthly_trends`/`months_count` body exactly when every stored date
parses as `%Y-%m-%d` — if some stored date does not parse (dates are never
format-validated at upload), `strptime` raises `ValueError` uncaught and the
request fails with HTTP 500 instead. -/
theorem c1_trends_keys_amended :
    getTrends ([] : List Txn) = .ok .noData ∧
    (∀ txns : List Txn, txns ≠ [] →
      ((∀ t ∈ txns, (parseDate t.date).isSome) →
        ∃ bs, getTrends txns = .ok (.trends bs bs.length)) ∧
      ((∃ t ∈ txns, parseDate t.date = none) →
        ∃ msg, getTrends txns = .error (.valueError msg))) := by
  refine ⟨rfl, ?_⟩
  intro txns hne
  constructor
  · intro hp
    obtain ⟨bs, hbs, _, _, _⟩ := getTrends_ok txns hne hp
    exact ⟨bs, hbs⟩
  · exact getTrends_error_of_bad_date txns hne

/-- C1 counterexample: the empty store is reachable, `GET /trends` there
returns the `message`/`trends` body, and that body is never the
`monthly_trends`/`months_count` variant the claim promises for every state. -/
theorem c1_empty_store_counterexample :
    Reachable (⟨[], none⟩ : StoreState SummaryResult) ∧
    getTrends ([] : List Txn) = .ok .noData ∧
    ∀ (bs : List MonthBucket) (n : ℕ),
      getTrends ([] : List Txn) ≠ .ok (.trends bs n) := by
  refine ⟨Reachable.init, rfl, ?_⟩
  intro bs n h
  simp [getTrends] at h

theorem c1_witness :
    (∃ bs, getTrends [(⟨"1", 5, "Food", "2025-01-15"⟩ : Txn)]
      = .ok (.trends bs bs.length)) ∧
    (∃ msg, getTrends [(⟨"1", 5, "Food", "x"⟩ : Txn)]
      = .error (.valueError msg)) :=
  ⟨(c1_trends_keys_amended.2 [⟨"1", 5, "Food", "2025-01-15"⟩]
      (by decide)).1 (by decide),
   (c1_trends_keys_amended.2 [⟨"1", 5, "Food", "x"⟩]
      (by decide)).2 ⟨⟨"1", 5, "Food", "x"⟩, by decide, by decide⟩⟩

/-- C7 (amended): on a non-empty store whose dates all parse, the trend
buckets are output in strictly ascending lexicographic order of month key, and
every transaction is placed in the bucket whose key is the zero-padded
`YYYY-MM` rendering of its parsed date; that key is the 7-character prefix of
the stored date string exactly when the stored string is fully zero-padded
(10 characters long) — `strptime` also accepts non-padded dates, for which the
key differs from the raw prefix. -/
theorem c7_trends_buckets_amended (txns : List Txn) (hne : txns ≠ [])
    (hp : ∀ t ∈ txns, (parseDate t.date).isSome) :
    ∃ bs, getTrends txns = .ok (.trends bs bs.length) ∧
      bs.Pairwise (fun a b => a.month < b.month) ∧
      ∀ t ∈ txns, ∀ y m d, parseDate t.date = some (y, m, d) →
        monthKey y m ∈ bs.map MonthBucket.month ∧
        (t.date.length = 10 →
          ∃ rest, t.date.data = (monthKey y m).data ++ rest) := by
  obtain ⟨bs, hbs, hpw, hmem, _⟩ := getTrends_ok txns hne hp
  refine ⟨bs, hbs, hpw, ?_⟩
  intro t ht y m d hpd
  constructor
  · have hk : txnMonthKey t = monthKey y m := by
      unfold txnMonthKey
      rw [hpd]
    have := hmem t ht
    rwa [hk] at this
  · intro hlen
    exact parse_monthKey_padded t.date y m d hpd hlen

/-- C7 counterexample: the date `"2025-1-15"` parses (CPython's `%m` accepts a
single digit), is bucketed under `"2025-01"`, yet `"2025-01"` is not a prefix
of the stored date string — so bucket keys do not always equal the raw
`YYYY-MM` prefix of the stored date. -/
theorem c7_unpadded_date_counterexample :
    (∀ t ∈ [(⟨"1", 5, "Food", "2025-1-15"⟩ : Txn)],
      (parseDate t.date).isSome) ∧
    (∃ bs, getTrends [(⟨"1", 5, "Food", "2025-1-15"⟩ : Txn)]
      = .ok (.trends bs bs.length) ∧ bs.map MonthBucket.month = ["2025-01"]) ∧
    ∀ rest : List Char,
      ("2025-1-15" : String).data ≠ ("2025-01" : String).data ++ rest := by
  refine ⟨by decide, ?_, ?_⟩
  · obtain ⟨bs, hbs, _, _, hkeysperm⟩ :=
      getTrends_ok [(⟨"1", 5, "Food", "2025-1-15"⟩ : Txn)] (by decide) (by decide)
    refine ⟨bs, hbs, ?_⟩
    have hsingle : newKeys []
        (([(⟨"1", 5, "Food", "2025-1-15"⟩ : Txn)]).map txnMonthKey)
        = ["2025-01"] := by decide
    rw [hsingle] at hkeysperm
    exact List.perm_singleton.mp hkeysperm
  intro rest h
  have hL : ("2025-1-15" : String).data
      = ['2', '0', '2', '5', '-', '1', '-', '1', '5'] := rfl
  have hP : ("2025-01" : String).data = ['2', '0', '2', '5', '-', '0', '1'] := rfl
  rw [hL, hP] at h
  have h5 := congrArg (fun l => l[5]?) h
  dsimp only at h5
  rw [List.getElem?_append_left (by simp)] at h5
  exact absurd h5 (by decide)

theorem c7_witness :
    (([(⟨"1", 5, "Food", "2025-01-15"⟩ : Txn)] : List Txn) ≠ []) ∧
    ∃ bs, getTrends [(⟨"1", 5, "Food", "2025-01-15"⟩ : Txn)]
        = .ok (.trends bs bs.length) ∧
      bs.Pairwise (fun a b => a.month < b.month) ∧
      ∀ t ∈ [(⟨"1", 5, "Food", "2025-01-15"⟩ : Txn)], ∀ y m d,
        parseDate t.date = some (y, m, d) →
        monthKey y m ∈ bs.map MonthBucket.month ∧
        (t.date.length = 10 →
          ∃ rest, t.date.data = (monthKey y m).data ++ rest) :=
  ⟨by decide, c7_trends_buckets_amended [⟨"1", 5, "Food", "2025-01-15"⟩]
    (by decide) (by decide)⟩

/-! ### Claim C8 -/

theorem foldl_max_spec : ∀ (xs : List ℚ) (x : ℚ),
    xs.foldl max x ∈ x :: xs ∧ ∀ a ∈ x :: xs, a ≤ xs.foldl max x
  | [], x => ⟨by simp, by simp⟩
  | y :: ys, x => by
    rw [List.foldl_cons]
    obtain ⟨hmem, hle⟩ := foldl_max_spec ys (max x y)
    have hxy : max x y ≤ ys.foldl max (max x y) :=
      hle _ (List.mem_cons_self _ _)
    constructor
    · rcases List.mem_cons.mp hmem with h | h
      · rw [h]
        rcases max_choice x y with hc | hc <;> rw [hc]
        · exact List.mem_cons_self x (y :: ys)
        · exact List.mem_cons_of_mem x (List.mem_cons_self y ys)
      · exact List.mem_cons_of_mem x (List.mem_cons_of_mem y h)
    · intro a ha
      rcases List.mem_cons.mp ha with rfl | ha'
      · exact le_trans (le_max_left a y) hxy
      · rcases List.mem_cons.mp ha' with rfl | ha''
        · exact le_trans (le_max_right x a) hxy
        · exact hle a (List.mem_cons_of_mem _ ha'')

theorem foldl_min_spec : ∀ (xs : List ℚ) (x : ℚ),
    xs.foldl min x ∈ x :: xs ∧ ∀ a ∈ x :: xs, xs.foldl min x ≤ a
  | [], x => ⟨by simp, by simp⟩
  | y :: ys, x => by
    rw [List.foldl_cons]
    obtain ⟨hmem, hle⟩ := foldl_min_spec ys (min x y)
    have hxy : ys.foldl min (min x y) ≤ min x y :=
      hle _ (List.mem_cons_self _ _)
    constructor
    · rcases List.mem_cons.mp hmem with h | h
      · rw [h]
        rcases min_choice x y with hc | hc <;> rw [hc]
        · exact List.mem_cons_self x (y :: ys)
        · exact List.mem_cons_of_mem x (List.mem_cons_self y ys)
      · exact List.mem_cons_of_mem x (List.mem_cons_of_mem y h)
    · intro a ha
      rcases List.mem_cons.mp ha with rfl | ha'
      · exact le_trans hxy (min_le_left a y)
      · rcases List.mem_cons.mp ha' with rfl | ha''
        · exact le_trans hxy (min_le_right x a)
        · exact hle a (List.mem_cons_of_mem _ ha'')

/-- C8: with a non-empty store and at least one exact (case-sensitive)
category match, `GET /category-details` answers 200 with the matches sorted
ascending by date string, `count`/`total`/`average` over the matches (the
latter two rounded to 2 decimals), and `highest`/`lowest` the raw maximum and
minimum match amounts, not rounded. -/
theorem getCategoryDetails_cons_eq (txns : List Txn) (c : String) (m0 : Txn)
    (mrest : List Txn) (hne : txns ≠ [])
    (hms : txns.filter (fun t => t.category == c) = m0 :: mrest) :
    getCategoryDetails txns c = .ok (.ok200
      ⟨c, round2 (((m0 :: mrest).map Txn.amount).sum),
        (m0 :: mrest).length,
        round2 ((((m0 :: mrest).map Txn.amount).sum)
          / ((m0 :: mrest).length : ℚ)),
        (mrest.map Txn.amount).foldl max m0.amount,
        (mrest.map Txn.amount).foldl min m0.amount,
        pySort (fun a b => decide (a.date < b.date)) (m0 :: mrest)⟩) := by
  have hlen : (((m0 :: mrest).length : ℕ) : ℚ) ≠ 0 := by
    rw [List.length_cons]
    push_cast
    positivity
  unfold getCategoryDetails
  rw [if_neg hne]
  dsimp only
  rw [hms]
  rw [if_neg (by simp)]
  have hdiv : pyDiv (((m0 :: mrest).map Txn.amount).sum)
      ((m0 :: mrest).length : ℚ)
      = .ok ((((m0 :: mrest).map Txn.amount).sum)
          / ((m0 :: mrest).length : ℚ)) := by
    unfold pyDiv
    rw [if_neg hlen]
  rw [hdiv]
  dsimp only [Bind.bind, Except.bind, List.map_cons, pyMaxList, pyMinList]

theorem c8_category_details (txns : List Txn) (c : String) (hne : txns ≠ [])
    (hm : txns.filter (fun t => t.category == c) ≠ []) :
    ∃ res, getCategoryDetails txns c = .ok (.ok200 res) ∧
      res.transactions.Perm (txns.filter (fun t => t.category == c)) ∧
      res.transactions.Pairwise (fun a b => a.date ≤ b.date) ∧
      res.count = (txns.filter (fun t => t.category == c)).length ∧
      res.total = round2
        (((txns.filter (fun t => t.category == c)).map Txn.amount).sum) ∧
      res.average = round2
        ((((txns.filter (fun t => t.category == c)).map Txn.amount).sum)
          / ((txns.filter (fun t => t.category == c)).length : ℚ)) ∧
      (res.highest ∈ (txns.filter (fun t => t.category == c)).map Txn.amount ∧
        ∀ a ∈ (txns.filter (fun t => t.category == c)).map Txn.amount,
          a ≤ res.highest) ∧
      (res.lowest ∈ (txns.filter (fun t => t.category == c)).map Txn.amount ∧
        ∀ a ∈ (txns.filter (fun t => t.category == c)).map Txn.amount,
          res.lowest ≤ a) := by
  cases hms : txns.filter (fun t => t.category == c) with
  | nil => exact absurd hms hm
  | cons m0 mrest =>
    have heq := getCategoryDetails_cons_eq txns c m0 mrest hne hms
    refine ⟨_, heq, ?_, ?_, rfl, rfl, rfl, ?_, ?_⟩
    · exact pySort_perm _ _
    · have hpw := pySort_key_asc Txn.date
        (fun a b => decide (a.date < b.date)) (fun a b => by simp)
        (fun _ _ => True) (m0 :: mrest) (pairwise_trivial _)
      refine hpw.imp ?_
      intro a b hab
      rcases hab with hab | ⟨hab, _⟩
      · exact le_of_lt hab
      · exact le_of_eq hab
    · obtain ⟨hmem, hle⟩ := foldl_max_spec (mrest.map Txn.amount) m0.amount
      rw [List.map_cons]
      exact ⟨hmem, hle⟩
    · obtain ⟨hmem, hle⟩ := foldl_min_spec (mrest.map Txn.amount) m0.amount
      rw [List.map_cons]
      exact ⟨hmem, hle⟩

theorem c8_witness :
    ∃ res, getCategoryDetails
        [(⟨"1", 100, "Food", "2025-01-05"⟩ : Txn),
         ⟨"2", 50, "Travel", "2025-02-10"⟩,
         ⟨"3", 7, "Food", "2025-01-02"⟩] "Food" = .ok (.ok200 res) ∧
      res.transactions.Perm
        ([(⟨"1", 100, "Food", "2025-01-05"⟩ : Txn),
          ⟨"2", 50, "Travel", "2025-02-10"⟩,
          ⟨"3", 7, "Food", "2025-01-02"⟩].filter
            (fun t => t.category == "Food")) ∧
      res.transactions.Pairwise (fun a b => a.date ≤ b.date) ∧
      res.count = ([(⟨"1", 100, "Food", "2025-01-05"⟩ : Txn),
          ⟨"2", 50, "Travel", "2025-02-10"⟩,
          ⟨"3", 7, "Food", "2025-01-02"⟩].filter
            (fun t => t.category == "Food")).length ∧
      res.total = round2
        ((([(⟨"1", 100, "Food", "2025-01-05"⟩ : Txn),
          ⟨"2", 50, "Travel", "2025-02-10"⟩,
          ⟨"3", 7, "Food", "2025-01-02"⟩].filter
            (fun t => t.category == "Food")).map Txn.amount).sum) ∧
      res.average = round2
        (((([(⟨"1", 100, "Food", "2025-01-05"⟩ : Txn),
          ⟨"2", 50, "Travel", "2025-02-10"⟩,
          ⟨"3", 7, "Food", "2025-01-02"⟩].filter
            (fun t => t.category == "Food")).map Txn.amount).sum)
          / (([(⟨"1", 100, "Food", "2025-01-05"⟩ : Txn),
          ⟨"2", 50, "Travel", "2025-02-10"⟩,
          ⟨"3", 7, "Food", "2025-01-02"⟩].filter
            (fun t => t.category == "Food")).length : ℚ)) ∧
      (res.highest ∈ ([(⟨"1", 100, "Food", "2025-01-05"⟩ : Txn),
          ⟨"2", 50, "Travel", "2025-02-10"⟩,
          ⟨"3", 7, "Food", "2025-01-02"⟩].filter
            (fun t => t.category == "Food")).map Txn.amount ∧
        ∀ a ∈ ([(⟨"1", 100, "Food", "2025-01-05"⟩ : Txn),
          ⟨"2", 50, "Travel", "2025-02-10"⟩,
          ⟨"3", 7, "Food", "2025-01-02"⟩].filter
            (fun t => t.category == "Food")).map Txn.amount,
          a ≤ res.highest) ∧
      (res.lowest ∈ ([(⟨"1", 100, "Food", "2025-01-05"⟩ : Txn),
          ⟨"2", 50, "Travel", "2025-02-10"⟩,
          ⟨"3", 7, "Food", "2025-01-02"⟩].filter
            (fun t => t.category == "Food")).map Txn.amount ∧
        ∀ a ∈ ([(⟨"1", 100, "Food", "2025-01-05"⟩ : Txn),
          ⟨"2", 50, "Travel", "2025-02-10"⟩,
          ⟨"3", 7, "Food", "2025-01-02"⟩].filter
            (fun t => t.category == "Food")).map Txn.amount,
          res.lowest ≤ a) :=
  c8_category_details
    [⟨"1", 100, "Food", "2025-01-05"⟩, ⟨"2", 50, "Travel", "2025-02-10"⟩,
     ⟨"3", 7, "Food", "2025-01-02"⟩] "Food" (by decide) (by decide)

/-! ### Lemmas about `GET /insight` -/

theorem pyDiv_ok (a b : ℚ) (h : b ≠ 0) : pyDiv a b = .ok (a / b) := by
  unfold pyDiv
  rw [if_neg h]

theorem pyDiv_zero (a b : ℚ) (h : b = 0) :
    pyDiv a b = .error .zeroDivisionError := by
  unfold pyDiv
  rw [if_pos h]

/-- A numeric label for each insight shape, in the fixed order the code
appends them. -/
def insightKind : Insight → ℕ
  | .noTransactions => 0
  | .highestSpend _ _ _ => 1
  | .averageValue _ _ => 2
  | .mostFrequent _ _ => 3
  | .lowestSpend _ _ => 4
  | .highValue _ _ => 5

theorem categoryTotals_ne_nil (txns : List Txn) (hne : txns ≠ []) :
    categoryTotals txns ≠ [] := by
  intro h
  have hk : (categoryTotals txns).map Prod.fst
      = newKeys [] (txns.map Txn.category) := by
    simpa using keys_foldl_pyUpd Txn.category (fun t x => x + t.amount)
      (fun _ => (0 : ℚ)) txns []
  rw [h] at hk
  cases txns with
  | nil => exact hne rfl
  | cons t ts =>
    rw [List.map_cons, newKeys_cons, if_neg (by simp)] at hk
    simp at hk

theorem categoryCounts_ne_nil (txns : List Txn) (hne : txns ≠ []) :
    categoryCounts txns ≠ [] := by
  intro h
  have hk : (categoryCounts txns).map Prod.fst
      = newKeys [] (txns.map Txn.category) := by
    simpa using keys_foldl_pyUpd Txn.category (fun _ n => n + 1)
      (fun _ => (0 : ℕ)) txns []
  rw [h] at hk
  cases txns with
  | nil => exact hne rfl
  | cons t ts =>
    rw [List.map_cons, newKeys_cons, if_neg (by simp)] at hk
    simp at hk

theorem one_lt_length_of_two_mem {α : Type} {l : List α} {a b : α}
    (ha : a ∈ l) (hb : b ∈ l) (hne : a ≠ b) : 1 < l.length := by
  cases l with
  | nil => simp at ha
  | cons x xs =>
    cases xs with
    | nil =>
      simp at ha hb
      exact absurd (ha.trans hb.symm) hne
    | cons y ys =>
      simp only [List.length_cons]
      omega

theorem exists_two_ne_of_nodup {α : Type} {l : List α} (hnd : l.Nodup)
    (hlen : 1 < l.length) : ∃ a ∈ l, ∃ b ∈ l, a ≠ b := by
  cases l with
  | nil => simp at hlen
  | cons x xs =>
    cases xs with
    | nil => simp at hlen
    | cons y ys =>
      refine ⟨x, by simp, y, by simp, ?_⟩
      have hx := (List.nodup_cons.mp hnd).1
      intro h
      exact hx (h ▸ List.mem_cons_self y ys)

theorem one_lt_totals_length_iff (txns : List Txn) :
    1 < (categoryTotals txns).length ↔
      ∃ t₁ ∈ txns, ∃ t₂ ∈ txns, t₁.category ≠ t₂.category := by
  have hk : (categoryTotals txns).map Prod.fst
      = newKeys [] (txns.map Txn.category) := by
    simpa using keys_foldl_pyUpd Txn.category (fun t x => x + t.amount)
      (fun _ => (0 : ℚ)) txns []
  have hlen : (categoryTotals txns).length
      = (newKeys [] (txns.map Txn.category)).length := by
    rw [← hk, List.length_map]
  rw [hlen]
  constructor
  · intro h
    obtain ⟨c₁, hc₁, c₂, hc₂, hcne⟩ :=
      exists_two_ne_of_nodup (newKeys_nodup _ _) h
    obtain ⟨t₁, ht₁, rfl⟩ := List.mem_map.mp ((mem_newKeys _ _ _).mp hc₁).2
    obtain ⟨t₂, ht₂, rfl⟩ := List.mem_map.mp ((mem_newKeys _ _ _).mp hc₂).2
    exact ⟨t₁, ht₁, t₂, ht₂, hcne⟩
  · rintro ⟨t₁, ht₁, t₂, ht₂, hcne⟩
    have h₁ : t₁.category ∈ newKeys [] (txns.map Txn.category) :=
      (mem_newKeys _ _ _).mpr ⟨by simp, List.mem_map_of_mem _ ht₁⟩
    have h₂ : t₂.category ∈ newKeys [] (txns.map Txn.category) :=
      (mem_newKeys _ _ _).mpr ⟨by simp, List.mem_map_of_mem _ ht₂⟩
    exact one_lt_length_of_two_mem h₁ h₂ hcne

theorem sum_snd_categoryTotals_eq (txns : List Txn) :
    ((categoryTotals txns).map Prod.snd).sum = (txns.map Txn.amount).sum := by
  simpa using sum_snd_categoryTotals txns []

/-- On a non-empty store with nonzero total amount, `GET /insight` answers 200
with: the highest-spend, average-value and most-frequent insights always, in
that order; the lowest-spend insight exactly when two stored transactions have
different categories; and the high-value insight exactly when some stored
amount strictly exceeds twice the overall average. -/
theorem getInsights_ok (txns : List Txn) (hne : txns ≠ [])
    (hs : (txns.map Txn.amount).sum ≠ 0) :
    ∃ l, getInsights txns = .ok l ∧
      l.map insightKind = [1, 2, 3]
        ++ (if ∃ t₁ ∈ txns, ∃ t₂ ∈ txns, t₁.category ≠ t₂.category
            then [4] else [])
        ++ (if ∃ t ∈ txns,
              ((txns.map Txn.amount).sum / (txns.length : ℚ)) * 2 < t.amount
            then [5] else []) := by
  cases htot : categoryTotals txns with
  | nil => exact absurd htot (categoryTotals_ne_nil txns hne)
  | cons p0 prest =>
  cases hcnt : categoryCounts txns with
  | nil => exact absurd hcnt (categoryCounts_ne_nil txns hne)
  | cons q0 qrest =>
  have hS : ((p0 :: prest).map Prod.snd).sum ≠ 0 := by
    rw [← htot, sum_snd_categoryTotals_eq]
    exact hs
  have hn : ((txns.length : ℕ) : ℚ) ≠ 0 := by
    refine Nat.cast_ne_zero.mpr ?_
    intro h
    exact hne (List.length_eq_zero.mp h)
  unfold getInsights
  rw [if_neg hne]
  dsimp only
  rw [htot, hcnt]
  rw [if_neg (show ¬(p0 :: prest) = ([] : List (String × ℚ)) by simp)]
  dsimp only [pyMaxBySnd, Bind.bind, Except.bind]
  rw [pyDiv_ok _ _ hS]
  dsimp only [Bind.bind, Except.bind, pure, Except.pure]
  rw [pyDiv_ok _ _ hn]
  dsimp only [Bind.bind, Except.bind, pure, Except.pure]
  by_cases hmc : ∃ t₁ ∈ txns, ∃ t₂ ∈ txns, t₁.category ≠ t₂.category
  · have h4 : 1 < (p0 :: prest).length := by
      rw [← htot]
      exact (one_lt_totals_length_iff txns).mpr hmc
    rw [if_pos h4, if_pos hmc]
    by_cases hhv : txns.filter (fun t =>
        decide (((txns.map Txn.amount).sum / (txns.length : ℚ)) * 2
          < t.amount)) = []
    · have hnex : ¬ ∃ t ∈ txns,
          ((txns.map Txn.amount).sum / (txns.length : ℚ)) * 2 < t.amount := by
        rw [List.filter_eq_nil_iff] at hhv
        rintro ⟨t, ht, hlt⟩
        have hcontra := hhv t ht
        simp only [decide_eq_true_eq] at hcontra
        exact hcontra hlt
      rw [if_pos hhv, if_neg hnex]
      exact ⟨_, rfl, by simp [insightKind]⟩
    · have hex : ∃ t ∈ txns,
          ((txns.map Txn.amount).sum / (txns.length : ℚ)) * 2 < t.amount := by
        by_contra hnex
        apply hhv
        rw [List.filter_eq_nil_iff]
        intro a ha
        simp only [decide_eq_true_eq]
        intro hlt
        exact hnex ⟨a, ha, hlt⟩
      rw [if_neg hhv, if_pos hex]
      exact ⟨_, rfl, by simp [insightKind]⟩
  · have h4 : ¬ 1 < (p0 :: prest).length := by
      rw [← htot]
      intro h
      exact hmc ((one_lt_totals_length_iff txns).mp h)
    rw [if_neg h4, if_neg hmc]
    by_cases hhv : txns.filter (fun t =>
        decide (((txns.map Txn.amount).sum / (txns.length : ℚ)) * 2
          < t.amount)) = []
    · have hnex : ¬ ∃ t ∈ txns,
          ((txns.map Txn.amount).sum / (txns.length : ℚ)) * 2 < t.amount := by
        rw [List.filter_eq_nil_iff] at hhv
        rintro ⟨t, ht, hlt⟩
        have hcontra := hhv t ht
        simp only [decide_eq_true_eq] at hcontra
        exact hcontra hlt
      rw [if_pos hhv, if_neg hnex]
      exact ⟨_, rfl, by simp [insightKind]⟩
    · have hex : ∃ t ∈ txns,
          ((txns.map Txn.amount).sum / (txns.length : ℚ)) * 2 < t.amount := by
        by_contra hnex
        apply hhv
        rw [List.filter_eq_nil_iff]
        intro a ha
        simp only [decide_eq_true_eq]
        intro hlt
        exact hnex ⟨a, ha, hlt⟩
      rw [if_neg hhv, if_pos hex]
      exact ⟨_, rfl, by simp [insightKind]⟩

/-- On a non-empty store whose amounts sum to zero, the highest-spend
percentage of `GET /insight` divides by zero (a 500 in the app). -/
theorem getInsights_divZero (txns : List Txn) (hne : txns ≠ [])
    (hz : (txns.map Txn.amount).sum = 0) :
    getInsights txns = .error .zeroDivisionError := by
  cases htot : categoryTotals txns with
  | nil => exact absurd htot (categoryTotals_ne_nil txns hne)
  | cons p0 prest =>
  have hS0 : ((p0 :: prest).map Prod.snd).sum = 0 := by
    rw [← htot, sum_snd_categoryTotals_eq]
    exact hz
  unfold getInsights
  rw [if_neg hne]
  dsimp only
  rw [htot]
  rw [if_neg (show ¬(p0 :: prest) = ([] : List (String × ℚ)) by simp)]
  dsimp only [pyMaxBySnd, Bind.bind, Except.bind]
  rw [pyDiv_zero _ _ hS0]

/-! ### Claim C9 -/

/-- C9 (amended): `GET /insight` returns the fixed sentinel on an empty store;
on a non-empty store whose total amount is nonzero it returns, in the fixed
order: highest-spend, average-value and most-frequent always; lowest-spend
exactly when more than one distinct category exists; and high-value exactly
when some amount exceeds twice the overall average.  (With a zero total the
unguarded percentage division raises instead — see the counterexample.) -/
theorem c9_insights_amended :
    getInsights ([] : List Txn) = .ok [.noTransactions] ∧
    (∀ txns : List Txn, txns ≠ [] → (txns.map Txn.amount).sum ≠ 0 →
      ∃ l, getInsights txns = .ok l ∧
        l.map insightKind = [1, 2, 3]
          ++ (if ∃ t₁ ∈ txns, ∃ t₂ ∈ txns, t₁.category ≠ t₂.category
              then [4] else [])
          ++ (if ∃ t ∈ txns,
                ((txns.map Txn.amount).sum / (txns.length : ℚ)) * 2 < t.amount
              then [5] else [])) :=
  ⟨rfl, getInsights_ok⟩

/-- C9 counterexample: a single accepted transaction with amount `0` is a
non-empty list on which `GET /insight` raises `ZeroDivisionError` (an HTTP
500) instead of returning the promised insights. -/
theorem c9_zero_total_counterexample :
    (([(⟨"1", 0, "Food", "2025-01-01"⟩ : Txn)] : List Txn) ≠ []) ∧
    getInsights [(⟨"1", 0, "Food", "2025-01-01"⟩ : Txn)]
      = .error .zeroDivisionError :=
  ⟨by decide, getInsights_divZero _ (by decide) (by simp)⟩

theorem c9_witness :
    ∃ l, getInsights [(⟨"1", 100, "Food", "2025-01-05"⟩ : Txn),
        ⟨"2", 50, "Travel", "2025-02-10"⟩] = .ok l ∧
      l.map insightKind = [1, 2, 3]
        ++ (if ∃ t₁ ∈ [(⟨"1", 100, "Food", "2025-01-05"⟩ : Txn),
              ⟨"2", 50, "Travel", "2025-02-10"⟩],
            ∃ t₂ ∈ [(⟨"1", 100, "Food", "2025-01-05"⟩ : Txn),
              ⟨"2", 50, "Travel", "2025-02-10"⟩],
            t₁.category ≠ t₂.category then [4] else [])
        ++ (if ∃ t ∈ [(⟨"1", 100, "Food", "2025-01-05"⟩ : Txn),
              ⟨"2", 50, "Travel", "2025-02-10"⟩],
            (([(⟨"1", 100, "Food", "2025-01-05"⟩ : Txn),
              ⟨"2", 50, "Travel", "2025-02-10"⟩].map Txn.amount).sum
              / (([(⟨"1", 100, "Food", "2025-01-05"⟩ : Txn),
                ⟨"2", 50, "Travel", "2025-02-10"⟩] : List Txn).length : ℚ)) * 2
              < t.amount then [5] else []) :=
  c9_insights_amended.2
    [⟨"1", 100, "Food", "2025-01-05"⟩, ⟨"2", 50, "Travel", "2025-02-10"⟩]
    (by decide) (by norm_num)

/-! ### Claim C10 -/

theorem monthlyDataFrom_values : ∀ (ts : List Txn)
    (acc md : List (String × MonthAcc)),
    (∀ p ∈ acc, 0 < p.2.2.1 ∧ p.2.2.2 ≠ []) →
    monthlyDataFrom acc ts = .ok md →
    ∀ p ∈ md, 0 < p.2.2.1 ∧ p.2.2.2 ≠ []
  | [], acc, md, hacc, h => by
    cases h
    exact hacc
  | t :: ts, acc, md, hacc, h => by
    unfold monthlyDataFrom at h
    cases hpd : parseDate t.date with
    | none =>
      rw [hpd] at h
      dsimp only at h
      cases h
    | some ymd =>
      obtain ⟨y, m, d⟩ := ymd
      rw [hpd] at h
      dsimp only at h
      refine monthlyDataFrom_values ts _ md ?_ h
      refine pyUpd_values (fun (v : MonthAcc) => 0 < v.2.1 ∧ v.2.2 ≠ [])
        acc _ _ _ hacc ?_ ?_
      · intro b _
        exact ⟨Nat.succ_pos _, pyUpd_ne_nil _ _ _ _⟩
      · exact ⟨Nat.succ_pos _, pyUpd_ne_nil _ _ _ _⟩

theorem getTrends_no_divZero (txns : List Txn) :
    getTrends txns ≠ .error .zeroDivisionError := by
  unfold getTrends
  by_cases hne : txns = []
  · rw [if_pos hne]
    simp
  · rw [if_neg hne]
    cases hmd : monthlyDataFrom [] txns with
    | error e =>
      obtain ⟨msg, rfl⟩ := monthlyDataFrom_error txns [] e hmd
      dsimp only [Bind.bind, Except.bind]
      simp
    | ok md =>
      have hvals := monthlyDataFrom_values txns [] md (by simp) hmd
      have hperm := pySort_perm
        (fun (a b : String × MonthAcc) => decide (a.1 < b.1)) md
      obtain ⟨bs, hbs, _⟩ := mapM_mkBucket _
        (fun q hq => hvals q (hperm.mem_iff.mp hq))
      dsimp only [Bind.bind, Except.bind]
      rw [hbs]
      simp

theorem getCategoryDetails_no_divZero (txns : List Txn) (c : String) :
    getCategoryDetails txns c ≠ .error .zeroDivisionError := by
  by_cases hne : txns = []
  · subst hne
    simp [getCategoryDetails]
  · cases hms : txns.filter (fun t => t.category == c) with
    | nil =>
      unfold getCategoryDetails
      rw [if_neg hne]
      dsimp only
      rw [hms]
      simp
    | cons m0 mrest =>
      rw [getCategoryDetails_cons_eq txns c m0 mrest hne hms]
      simp

theorem mapM_ok_of_forall {α β : Type} (f : α → Except PyError β) (g : α → β) :
    ∀ l : List α, (∀ x ∈ l, f x = .ok (g x)) → l.mapM f = .ok (l.map g)
  | [], _ => rfl
  | x :: xs, h => by
    rw [List.mapM_cons, h x (List.mem_cons_self x xs),
      mapM_ok_of_forall f g xs (fun y hy => h y (List.mem_cons_of_mem x hy))]
    rfl

theorem summaryDivsChecked_eq (txns : List Txn) :
    summaryDivsChecked txns = .ok (computeSummary txns) := by
  unfold summaryDivsChecked computeSummary
  dsimp only
  rw [mapM_ok_of_forall _
    (mkCatRow ((categoryData txns).map (fun p => p.2.1)).sum)
    (categoryData txns) ?_]
  · dsimp only [Bind.bind, Except.bind, pure, Except.pure]
    by_cases hl : 0 < txns.length
    · rw [if_pos hl, if_pos hl, pyDiv_ok _ _ (Nat.cast_ne_zero.mpr (by omega))]
    · rw [if_neg hl, if_neg hl]
  · intro p _
    dsimp only
    by_cases hc : 0 < p.2.2.1
    · rw [if_pos hc, pyDiv_ok _ _ (Nat.cast_ne_zero.mpr (by omega))]
      dsimp only [Bind.bind, Except.bind, pure, Except.pure]
      by_cases hg : 0 < ((categoryData txns).map (fun p => p.2.1)).sum
      · rw [if_pos hg, pyDiv_ok _ _ (ne_of_gt hg)]
        simp [mkCatRow, hc, hg]
      · rw [if_neg hg]
        simp [mkCatRow, hc, hg]
    · rw [if_neg hc]
      dsimp only [Bind.bind, Except.bind, pure, Except.pure]
      by_cases hg : 0 < ((categoryData txns).map (fun p => p.2.1)).sum
      · rw [if_pos hg, pyDiv_ok _ _ (ne_of_gt hg)]
        simp [mkCatRow, hc, hg]
      · rw [if_neg hg]
        simp [mkCatRow, hc, hg]

/-- C10 (amended): the summary computes through its (source-guarded) divisions
without ever dividing by zero; trends and category-details never raise
`ZeroDivisionError` on any list; insights never divides by zero on an empty
store or when the total amount is nonzero — but its highest-spend percentage
division is unguarded, and divides by zero on reachable non-empty stores
whose amounts sum to zero (see the counterexample). -/
theorem c10_no_div_by_zero_amended :
    (∀ txns : List Txn, summaryDivsChecked txns = .ok (computeSummary txns)) ∧
    (∀ txns : List Txn, getTrends txns ≠ .error .zeroDivisionError) ∧
    (∀ (txns : List Txn) (c : String),
      getCategoryDetails txns c ≠ .error .zeroDivisionError) ∧
    (∀ txns : List Txn, (txns.map Txn.amount).sum ≠ 0 ∨ txns = [] →
      getInsights txns ≠ .error .zeroDivisionError) := by
  refine ⟨summaryDivsChecked_eq, getTrends_no_divZero,
    getCategoryDetails_no_divZero, ?_⟩
  intro txns h
  rcases h with hs | rfl
  · by_cases hne : txns = []
    · subst hne
      simp [getInsights]
    · obtain ⟨l, hl, _⟩ := getInsights_ok txns hne hs
      rw [hl]
      simp
  · simp [getInsights]

/-- C10 counterexample: the store holding one accepted zero-amount transaction
is reachable, and `GET /insight` there divides by zero. -/
theorem c10_divzero_counterexample :
    Reachable (⟨[⟨"1", 0, "Food", "2025-01-01"⟩], none⟩
      : StoreState SummaryResult) ∧
    getInsights [(⟨"1", 0, "Food", "2025-01-01"⟩ : Txn)]
      = .error .zeroDivisionError := by
  constructor
  · have h := Reachable.upload_step ⟨[], none⟩
      (.list [⟨some "1", some (some 0), some "Food", some "2025-01-01"⟩])
      Reachable.init
    have heq : (upload (⟨[], none⟩ : StoreState SummaryResult)
        (.list [⟨some "1", some (some 0), some "Food",
          some "2025-01-01"⟩])).1
        = ⟨[⟨"1", 0, "Food", "2025-01-01"⟩], none⟩ := by decide
    rwa [heq] at h
  · exact getInsights_divZero _ (by decide) (by simp)

theorem c10_witness :
    getInsights [(⟨"1", 100, "Food", "2025-01-05"⟩ : Txn)]
      ≠ .error .zeroDivisionError :=
  c10_no_div_by_zero_amended.2.2.2 [⟨"1", 100, "Food", "2025-01-05"⟩]
    (Or.inl (by norm_num))

end Tracker
